import Mathlib

/-!
Verification of the avr-door-controller firmware core against its
natural-language specification.

The development shallowly embeds the two source files:

* src/firmware/door-controller.c - the event pool/queue (fixed storage of
  8 slots doubling as singly linked FIFO nodes), the handler registry and
  dispatch, and the per-door state machine.
* src/unnamed/part_000 - the host-side access-record encode/decode
  (write_set_access_record_query / read_get_access_record_response).

Machine integers are modelled as Nat with explicit masks / mod where the
C width matters (uint8, uint32).  C pointers into the static event pool
are modelled as slot indices (Option Nat, none = NULL).  The opaque
source pointers used as routing keys are modelled as Nat, with 0 playing
the role of NULL.  External collaborators (timers, triggers, the
credential validator) are modelled as emitted effect lists or callback
parameters.
-/

/-! ### Event pool and queue (src/firmware/door-controller.c, second part)

    struct event { struct event *next; const void *source; uint8_t id;
                   union event_val val; };
    #define MAX_PENDING_EVENTS 8
    static struct event *volatile events;        -- head
    static struct event *volatile events_tail;   -- tail
    static struct event events_storage[MAX_PENDING_EVENTS];

    A slot with source == NULL is free.  Pointers are slot indices. -/

/-- One slot of the static event storage: next pointer (slot index or
none for NULL), source routing key (0 = NULL = free slot), event id and
value. -/
structure QEvent where
  next : Option Nat
  source : Nat
  id : Nat
  val : Nat
deriving DecidableEq, Repr

/-- The all-zero slot contents, the initial state of the static storage
and the value a freed slot is reset to. -/
def emptySlot : QEvent := { next := none, source := 0, id := 0, val := 0 }

/-- The global queue state: the slot array (events_storage), the list
head pointer (events) and the tail pointer (events_tail). -/
structure EQState where
  storage : List QEvent
  events : Option Nat
  events_tail : Option Nat
deriving DecidableEq, Repr

/-- MAX_PENDING_EVENTS from the C source. -/
def MAX_PENDING_EVENTS : Nat := 8

/-- errno EINVAL (invalid argument), as used by the C via -EINVAL. -/
def EINVAL : Int := 22

/-- errno ENOMEM (out of memory), as used by the C via -ENOMEM. -/
def ENOMEM : Int := 12

/-- errno ENOENT (no such entry), as used by the C via -ENOENT. -/
def ENOENT : Int := 2

/-- The initial queue: all 8 slots free, head and tail NULL. -/
def initEQ : EQState :=
  { storage := List.replicate MAX_PENDING_EVENTS emptySlot
    events := none
    events_tail := none }

/-- The scan for a free slot in event_add:
    for (i = 0; i < ARRAY_SIZE(events_storage); i++)
      if (!events_storage[i].source) { ev = &events_storage[i]; break; }
The scan walks the remaining slots, counting the index from base. -/
def findFreeScan : List QEvent → Nat → Option Nat
  | [], _ => none
  | e :: rest, base =>
    if e.source = 0 then some base else findFreeScan rest (base + 1)

/-- event_add(source, id, val): reject a NULL source, scan for a free
slot, fill it and link it at the tail.  Returns the new state and the
int8_t status (0, -EINVAL or -ENOMEM). -/
def event_add (q : EQState) (source id val : Nat) : EQState × Int :=
  if source = 0 then (q, -EINVAL)
  else
    match findFreeScan q.storage 0 with
    | none => (q, -ENOMEM)
    | some i =>
      let ev : QEvent := { next := none, source := source, id := id, val := val }
      let s := q.storage.set i ev
      match q.events_tail with
      | some t =>
        ({ storage := s.set t { s.getD t emptySlot with next := some i }
           events := q.events
           events_tail := some i }, 0)
      | none =>
        ({ storage := s, events := some i, events_tail := some i }, 0)

/-- The unlink loop of event_remove:
    for (ev = events, prev = NULL; ev; ev = next) {
      next = ev->next;
      if (ev->source != source || ev->id != id) { prev = ev; continue; }
      if (prev) prev->next = next; else events = next;
      if (!next) events_tail = prev;
      ev->next = NULL; ev->source = NULL;
    }
The C walks actual pointers; under the well-formedness invariant the
chain has at most 8 nodes, so the loop is given the storage size as
fuel. -/
def event_remove_loop :
    Nat → List QEvent → Option Nat → Option Nat → Option Nat → Option Nat →
    Nat → Nat → List QEvent × Option Nat × Option Nat
  | 0, s, ev, tl, _, _, _, _ => (s, ev, tl)
  | _ + 1, s, ev, tl, none, _, _, _ => (s, ev, tl)
  | fuel + 1, s, ev, tl, some c, prev, src, id =>
    let e := s.getD c emptySlot
    let nxt := e.next
    if e.source ≠ src ∨ e.id ≠ id then
      event_remove_loop fuel s ev tl nxt (some c) src id
    else
      let s1 := match prev with
        | some p => s.set p { s.getD p emptySlot with next := nxt }
        | none => s
      let ev1 := match prev with
        | some _ => ev
        | none => nxt
      let tl1 := if nxt = none then prev else tl
      let s2 := s1.set c { s1.getD c emptySlot with next := none, source := 0 }
      event_remove_loop fuel s2 ev1 tl1 nxt prev src id

/-- event_remove(source, id): reject a NULL source, then unlink and free
every queued event whose (source, id) matches. -/
def event_remove (q : EQState) (src id : Nat) : EQState × Int :=
  if src = 0 then (q, -EINVAL)
  else
    let r := event_remove_loop q.storage.length q.storage q.events q.events_tail
               q.events none src id
    ({ storage := r.1, events := r.2.1, events_tail := r.2.2 }, 0)

/-- The queue part of event_loop_run_once: atomically detach the head
(clearing its next pointer), fix the tail when the queue drains, run the
handlers on the detached event, then free its slot (ev->source = NULL).
The popped (source, id, val) payload - the event handed to
event_run_handlers - is returned alongside the new state. -/
def event_loop_run_once (q : EQState) : EQState × Option (Nat × Nat × Nat) :=
  match q.events with
  | none => (q, none)
  | some h =>
    let e := q.storage.getD h emptySlot
    let s := q.storage.set h { e with next := none, source := 0 }
    ({ storage := s
       events := e.next
       events_tail := if e.next = none then none else q.events_tail },
     some (e.source, e.id, e.val))

/-! ### Chain abstraction for the linked FIFO -/

/-- chainSeg s cur l ex: starting at pointer cur, the slots of s link
through exactly the indices of l, ending with the pointer ex. -/
def chainSeg (s : List QEvent) : Option Nat → List Nat → Option Nat → Prop
  | cur, [], ex => cur = ex
  | cur, i :: is, ex => cur = some i ∧ chainSeg s (s.getD i emptySlot).next is ex

instance chainSeg.instDecidable (s : List QEvent) :
    ∀ (l : List Nat) (cur ex : Option Nat), Decidable (chainSeg s cur l ex)
  | [], cur, ex => by unfold chainSeg; infer_instance
  | i :: is, cur, ex => by
    have := chainSeg.instDecidable s is (s.getD i emptySlot).next ex
    unfold chainSeg; infer_instance

/-- Read off the chain of slot indices from a pointer, with fuel. -/
def chainFrom (s : List QEvent) : Nat → Option Nat → List Nat
  | 0, _ => []
  | _ + 1, none => []
  | fuel + 1, some c => c :: chainFrom s fuel (s.getD c emptySlot).next

/-- The chain of slot indices of the queue, head to tail. -/
def qChain (q : EQState) : List Nat :=
  chainFrom q.storage q.storage.length q.events

/-- The payload stored in slot i: (source, id, val). -/
def payloadAt (s : List QEvent) (i : Nat) : Nat × Nat × Nat :=
  ((s.getD i emptySlot).source, (s.getD i emptySlot).id, (s.getD i emptySlot).val)

/-- The abstract queue contents: the payloads along the chain, in FIFO
order. -/
def absQ (q : EQState) : List (Nat × Nat × Nat) :=
  (qChain q).map (payloadAt q.storage)

/-- keepB s src id i: slot i does NOT match the removal key (source, id),
i.e. event_remove keeps it. -/
def keepB (s : List QEvent) (src id : Nat) (i : Nat) : Bool :=
  !((s.getD i emptySlot).source == src && (s.getD i emptySlot).id == id)

/-- Well-formedness of the queue state: the storage has its static size,
the head pointer reaches NULL through the chain, the chain indices are
distinct and in range, the tail pointer is the last chain node, and a
slot is occupied (non-NULL source) exactly when it is on the chain. -/
def WF (q : EQState) : Prop :=
  q.storage.length = MAX_PENDING_EVENTS ∧
  chainSeg q.storage q.events (qChain q) none ∧
  (qChain q).Nodup ∧
  (∀ i ∈ qChain q, i < MAX_PENDING_EVENTS) ∧
  q.events_tail = (qChain q).getLast? ∧
  (∀ i, i < MAX_PENDING_EVENTS →
    ((q.storage.getD i emptySlot).source ≠ 0 ↔ i ∈ qChain q))

instance : Decidable (WF q) := by
  unfold WF; infer_instance

/-! ### Helper lemmas about slots and chains -/

theorem getD_set_ne (s : List QEvent) {i j : Nat} (e : QEvent) (h : i ≠ j) :
    (s.set i e).getD j emptySlot = s.getD j emptySlot := by
  simp [List.getD_eq_getElem?_getD, List.getElem?_set_ne h]

theorem getD_set_self (s : List QEvent) {i : Nat} (e : QEvent) (h : i < s.length) :
    (s.set i e).getD i emptySlot = e := by
  simp [List.getD_eq_getElem?_getD, List.getElem?_set_self h]

theorem chainSeg_nil {s : List QEvent} {cur ex : Option Nat} :
    chainSeg s cur [] ex ↔ cur = ex := Iff.rfl

theorem chainSeg_cons {s : List QEvent} {cur ex : Option Nat} {a : Nat} {L : List Nat} :
    chainSeg s cur (a :: L) ex ↔
      cur = some a ∧ chainSeg s (s.getD a emptySlot).next L ex := Iff.rfl

theorem chainSeg_append {s : List QEvent} {cur ex : Option Nat} {K L : List Nat} :
    chainSeg s cur (K ++ L) ex ↔ ∃ m, chainSeg s cur K m ∧ chainSeg s m L ex := by
  induction K generalizing cur with
  | nil =>
    simp only [List.nil_append, chainSeg_nil]
    constructor
    · intro h; exact ⟨cur, rfl, h⟩
    · rintro ⟨m, rfl, h⟩; exact h
  | cons a K ih =>
    rw [List.cons_append, chainSeg_cons]
    constructor
    · rintro ⟨h1, h2⟩
      obtain ⟨m, hm1, hm2⟩ := ih.mp h2
      exact ⟨m, ⟨h1, hm1⟩, hm2⟩
    · rintro ⟨m, hm, h3⟩
      rw [chainSeg_cons] at hm
      exact ⟨hm.1, ih.mpr ⟨m, hm.2, h3⟩⟩

theorem chainSeg_set_not_mem {s : List QEvent} {cur ex : Option Nat} {L : List Nat}
    {j : Nat} (e : QEvent) (hj : j ∉ L) (h : chainSeg s cur L ex) :
    chainSeg (s.set j e) cur L ex := by
  induction L generalizing cur with
  | nil => exact h
  | cons a L ih =>
    obtain ⟨h1, h2⟩ := h
    have hja : j ≠ a := fun hh => hj (hh ▸ List.mem_cons_self a L)
    have hjL : j ∉ L := fun hh => hj (List.mem_cons_of_mem a hh)
    exact ⟨h1, by rw [getD_set_ne s e hja]; exact ih hjL h2⟩

theorem chainFrom_eq_of_chainSeg {s : List QEvent} {L : List Nat} :
    ∀ {cur : Option Nat} {fuel : Nat}, chainSeg s cur L none → L.length ≤ fuel →
    chainFrom s fuel cur = L := by
  induction L with
  | nil =>
    intro cur fuel h _
    have : cur = none := h
    subst this
    cases fuel <;> rfl
  | cons a L ih =>
    intro cur fuel h hlen
    obtain ⟨h1, h2⟩ := h
    subst h1
    cases fuel with
    | zero => simp at hlen
    | succ f =>
      simp only [chainFrom]
      exact congrArg (List.cons a) (ih h2 (by simp at hlen; omega))

theorem length_le_of_nodup_lt {L : List Nat} {n : Nat} (hnd : L.Nodup)
    (hlt : ∀ i ∈ L, i < n) : L.length ≤ n := by
  have h := (List.subperm_of_subset hnd
    (fun x hx => List.mem_range.mpr (hlt x hx))).length_le
  simpa using h

theorem exists_not_mem_of_length_lt {L : List Nat} {n : Nat} (hlen : L.length < n) :
    ∃ i, i < n ∧ i ∉ L := by
  by_contra h
  push_neg at h
  have hsub : (List.range n).Subperm L :=
    List.subperm_of_subset (List.nodup_range n)
      (fun x hx => h x (List.mem_range.mp hx))
  have := hsub.length_le
  simp at this
  omega

theorem getLast?_append_of_ne_nil {C K : List Nat} (h : C ≠ []) :
    (K ++ C).getLast? = C.getLast? := by
  rw [List.getLast?_append]
  cases hc : C.getLast? with
  | none => exact absurd (List.getLast?_eq_none_iff.mp hc) h
  | some a => rfl

theorem payloadAt_set_ne {s : List QEvent} {i j : Nat} (e : QEvent) (h : i ≠ j) :
    payloadAt (s.set i e) j = payloadAt s j := by
  unfold payloadAt
  rw [getD_set_ne s e h]

theorem payloadAt_set_next {s : List QEvent} {p : Nat} {n : Option Nat}
    (hp : p < s.length) :
    payloadAt (s.set p { s.getD p emptySlot with next := n }) p = payloadAt s p := by
  unfold payloadAt
  rw [getD_set_self s _ hp]

theorem keepB_eq_payload (s : List QEvent) (src id j : Nat) :
    keepB s src id j =
      !((payloadAt s j).1 == src && (payloadAt s j).2.1 == id) := rfl

theorem keepB_congr {s t : List QEvent} {j : Nat} (src id : Nat)
    (h : payloadAt s j = payloadAt t j) :
    keepB s src id j = keepB t src id j := by
  rw [keepB_eq_payload, keepB_eq_payload, h]

theorem findFreeScan_none_spec :
    ∀ (s : List QEvent) (base : Nat), findFreeScan s base = none →
    ∀ j, j < s.length → (s.getD j emptySlot).source ≠ 0 := by
  intro s
  induction s with
  | nil => intro base _ j hj; simp at hj
  | cons e rest ih =>
    intro base h j hj
    simp only [findFreeScan] at h
    by_cases hsrc : e.source = 0
    · rw [if_pos hsrc] at h; exact absurd h (by simp)
    · rw [if_neg hsrc] at h
      cases j with
      | zero => simpa [List.getD] using hsrc
      | succ j =>
        have : (rest.getD j emptySlot).source ≠ 0 :=
          ih (base + 1) h j (by simp at hj; omega)
        simpa [List.getD] using this

theorem findFreeScan_some_spec :
    ∀ (s : List QEvent) (base j : Nat), findFreeScan s base = some j →
    base ≤ j ∧ j - base < s.length ∧ (s.getD (j - base) emptySlot).source = 0 := by
  intro s
  induction s with
  | nil => intro base j h; simp [findFreeScan] at h
  | cons e rest ih =>
    intro base j h
    simp only [findFreeScan] at h
    by_cases hsrc : e.source = 0
    · rw [if_pos hsrc] at h
      obtain rfl : base = j := by simpa using h
      refine ⟨Nat.le_refl _, by simp, ?_⟩
      simpa [List.getD] using hsrc
    · rw [if_neg hsrc] at h
      obtain ⟨h1, h2, h3⟩ := ih (base + 1) j h
      refine ⟨by omega, by simp; omega, ?_⟩
      have hidx : j - base = (j - (base + 1)) + 1 := by omega
      rw [hidx]
      simpa [List.getD] using h3

theorem keepB_true_iff {s : List QEvent} {src id i : Nat} :
    keepB s src id i = true ↔
      ((s.getD i emptySlot).source ≠ src ∨ (s.getD i emptySlot).id ≠ id) := by
  simp [keepB, Decidable.not_and_iff_or_not]

theorem keepB_false_iff {s : List QEvent} {src id i : Nat} :
    keepB s src id i = false ↔
      ((s.getD i emptySlot).source = src ∧ (s.getD i emptySlot).id = id) := by
  simp [keepB]

theorem chainSeg_eq_nil_of_none {s : List QEvent} {C : List Nat} {ex : Option Nat}
    (h : chainSeg s none C ex) : C = [] := by
  cases C with
  | nil => rfl
  | cons a L => exact absurd h.1 (by simp)

theorem chainSeg_ne_nil_of_some {s : List QEvent} {n : Nat} {C : List Nat}
    {ex : Option Nat} (h : chainSeg s (some n) C ex) (hex : ex = none) : C ≠ [] := by
  intro hC
  subst hC
  rw [chainSeg_nil] at h
  simp [hex] at h

theorem getLast?_cons_of_ne_nil {c : Nat} {C : List Nat} (h : C ≠ []) :
    (c :: C).getLast? = C.getLast? := by
  have : ([c] ++ C).getLast? = C.getLast? := getLast?_append_of_ne_nil h
  simpa using this

theorem event_remove_loop_keep {fuel : Nat} {s : List QEvent}
    {ev tl : Option Nat} {c : Nat} {prev : Option Nat} {src id : Nat}
    (h : keepB s src id c = true) :
    event_remove_loop (fuel + 1) s ev tl (some c) prev src id =
      event_remove_loop fuel s ev tl (s.getD c emptySlot).next (some c) src id := by
  simp only [event_remove_loop]
  rw [if_pos (keepB_true_iff.mp h)]

theorem event_remove_loop_remove_none {fuel : Nat} {s : List QEvent}
    {ev tl : Option Nat} {c : Nat} {src id : Nat}
    (h : keepB s src id c = false) :
    event_remove_loop (fuel + 1) s ev tl (some c) none src id =
      event_remove_loop fuel
        (s.set c { s.getD c emptySlot with next := none, source := 0 })
        (s.getD c emptySlot).next
        (if (s.getD c emptySlot).next = none then none else tl)
        (s.getD c emptySlot).next none src id := by
  have hm := keepB_false_iff.mp h
  simp only [event_remove_loop]
  rw [if_neg (by push_neg; exact hm)]

theorem event_remove_loop_remove_some {fuel : Nat} {s : List QEvent}
    {ev tl : Option Nat} {c p : Nat} {src id : Nat}
    (h : keepB s src id c = false) :
    event_remove_loop (fuel + 1) s ev tl (some c) (some p) src id =
      event_remove_loop fuel
        ((s.set p { s.getD p emptySlot with next := (s.getD c emptySlot).next }).set c
          { (s.set p
              { s.getD p emptySlot with
                next := (s.getD c emptySlot).next }).getD c emptySlot with
            next := none, source := 0 })
        ev
        (if (s.getD c emptySlot).next = none then some p else tl)
        (s.getD c emptySlot).next (some p) src id := by
  have hm := keepB_false_iff.mp h
  simp only [event_remove_loop]
  rw [if_neg (by push_neg; exact hm)]

/-- The postcondition of the event_remove unlink loop: the storage keeps
its size, the chain is the kept prefix K followed by the matching-free
part of C, the tail pointer is the last of that chain, slots off K ++ C
are untouched, kept slots keep their payload, and removed slots are
freed (source NULL, next NULL). -/
def removeLoopPost (s : List QEvent) (src id : Nat) (K C : List Nat)
    (r : List QEvent × Option Nat × Option Nat) : Prop :=
  r.1.length = 8 ∧
  chainSeg r.1 r.2.1 (K ++ C.filter (keepB s src id)) none ∧
  r.2.2 = (K ++ C.filter (keepB s src id)).getLast? ∧
  (∀ i, i < 8 → i ∉ K ++ C → r.1.getD i emptySlot = s.getD i emptySlot) ∧
  (∀ i ∈ K ++ C.filter (keepB s src id), payloadAt r.1 i = payloadAt s i) ∧
  (∀ i ∈ C, keepB s src id i = false →
    (r.1.getD i emptySlot).source = 0 ∧ (r.1.getD i emptySlot).next = none)

/-- Correctness of the event_remove unlink loop, by induction on the
unprocessed chain suffix C, with K the already-scanned (kept) prefix. -/
theorem event_remove_loop_spec (src id : Nat) :
    ∀ (C : List Nat) (fuel : Nat) (s : List QEvent) (ev tl cur : Option Nat)
      (K : List Nat),
    C.length ≤ fuel →
    s.length = 8 →
    chainSeg s cur C none →
    chainSeg s ev K cur →
    (K ++ C).Nodup →
    (∀ i ∈ K ++ C, i < 8) →
    tl = (K ++ C).getLast? →
    removeLoopPost s src id K C
      (event_remove_loop fuel s ev tl cur K.getLast? src id) := by
  intro C
  induction C with
  | nil =>
    intro fuel s ev tl cur K _ _ hC hK hnd hbnd htl
    rw [chainSeg_nil] at hC
    subst hC
    have hr : event_remove_loop fuel s ev tl none K.getLast? src id = (s, ev, tl) := by
      cases fuel <;> rfl
    rw [removeLoopPost, hr]
    refine ⟨?_, ?_, ?_, ?_, ?_, ?_⟩
    · assumption
    · simpa using hK
    · simpa using htl
    · intro i _ _; rfl
    · intro i _; rfl
    · intro i hi; simp at hi
  | cons c C ih =>
    intro fuel s ev tl cur K hlen hs8 hC hK hnd hbnd htl
    rw [chainSeg_cons] at hC
    obtain ⟨rfl, hC2⟩ := hC
    cases fuel with
    | zero => simp at hlen
    | succ f =>
    have hlenf : C.length ≤ f := by simp at hlen; omega
    have hcK : c ∉ K := by
      have := (List.nodup_append.mp hnd).2.2
      exact fun hc => this hc (List.mem_cons_self c C)
    have hcC : c ∉ C := by
      have := (List.nodup_append.mp hnd).2.1
      exact (List.nodup_cons.mp this).1
    have hc8 : c < 8 := hbnd c (by simp)
    by_cases hkc : keepB s src id c = true
    · -- the current slot does not match: keep it, advance prev
      rw [event_remove_loop_keep hkc]
      have hre : (K ++ [c]) ++ C = K ++ c :: C := by simp
      have hlast : (K ++ [c]).getLast? = some c := List.getLast?_concat K
      have hpost := ih f s ev tl (s.getD c emptySlot).next (K ++ [c]) hlenf hs8 hC2
        (chainSeg_append.mpr ⟨some c, hK, by rw [chainSeg_cons]; exact ⟨rfl, rfl⟩⟩)
        (by rw [hre]; exact hnd)
        (by rw [hre]; exact hbnd)
        (by rw [hre]; exact htl)
      rw [hlast] at hpost
      have hfil : (K ++ [c]) ++ C.filter (keepB s src id) =
          K ++ (c :: C).filter (keepB s src id) := by
        rw [List.filter_cons_of_pos hkc]
        simp
      obtain ⟨p1, p2, p3, p4, p5, p6⟩ := hpost
      refine ⟨p1, ?_, ?_, ?_, ?_, ?_⟩
      · rw [← hfil]; exact p2
      · rw [← hfil]; exact p3
      · intro i hi hni
        exact p4 i hi (by rw [hre]; exact hni)
      · intro i hi
        exact p5 i (by rw [hfil]; exact hi)
      · intro i hi hkeep
        rcases List.mem_cons.mp hi with rfl | hiC
        · rw [hkc] at hkeep; simp at hkeep
        · exact p6 i hiC hkeep
    · -- the current slot matches: unlink and free it
      rw [Bool.not_eq_true] at hkc
      rcases hKlast : K.getLast? with _ | p
      · -- prev = NULL: K is empty, the head pointer is redirected
        have hKnil : K = [] := List.getLast?_eq_none_iff.mp hKlast
        subst hKnil
        rw [chainSeg_nil] at hK
        subst hK
        rw [event_remove_loop_remove_none hkc]
        set nxt := (s.getD c emptySlot).next with hnxt
        set s2 := s.set c { s.getD c emptySlot with next := none, source := 0 }
          with hs2
        have hs2len : s2.length = 8 := by rw [hs2, List.length_set]; exact hs8
        have hC2s2 : chainSeg s2 nxt C none := chainSeg_set_not_mem _ hcC hC2
        have hpay : ∀ i ∈ C, payloadAt s2 i = payloadAt s i := by
          intro i hi
          exact payloadAt_set_ne _ (fun hh => hcC (hh ▸ hi))
        have hkeq : ∀ i ∈ C, keepB s2 src id i = keepB s src id i := by
          intro i hi
          exact keepB_congr src id (hpay i hi)
        have htl1 : (if nxt = none then none else tl) = ([] ++ C).getLast? := by
          cases hn : nxt with
          | none =>
            have hCnil : C = [] :=
              chainSeg_eq_nil_of_none (show chainSeg s2 none C none from hn ▸ hC2s2)
            simp [hn, hCnil]
          | some n =>
            have hCne : C ≠ [] := by
              intro hCnil
              rw [hCnil, chainSeg_nil, hn] at hC2
              simp at hC2
            rw [if_neg (by simp [hn]), htl]
            simp [getLast?_cons_of_ne_nil hCne]
        have hpost := ih f s2 nxt (if nxt = none then none else tl) nxt []
          hlenf hs2len hC2s2 (by rw [chainSeg_nil])
          (by
            have := (List.nodup_cons.mp (by simpa using hnd)).2
            simpa using this)
          (by
            intro i hi
            refine hbnd i ?_
            simp at hi ⊢
            exact Or.inr hi)
          htl1
        rw [List.getLast?_nil] at hpost
        have hfil2 : C.filter (keepB s2 src id) = C.filter (keepB s src id) :=
          List.filter_congr hkeq
        have hfil : ([] : List Nat) ++ C.filter (keepB s2 src id) =
            ([] : List Nat) ++ (c :: C).filter (keepB s src id) := by
          rw [List.filter_cons_of_neg (by rw [hkc]; simp), hfil2]
        obtain ⟨p1, p2, p3, p4, p5, p6⟩ := hpost
        refine ⟨p1, ?_, ?_, ?_, ?_, ?_⟩
        · rw [← hfil]; exact p2
        · rw [← hfil]; exact p3
        · intro i hi hni
          have hic : i ≠ c := by
            intro hh
            exact hni (by simp [hh])
          have hni2 : i ∉ ([] : List Nat) ++ C := by
            intro hh
            refine hni ?_
            simp at hh ⊢
            exact Or.inr hh
          rw [p4 i hi hni2, hs2, getD_set_ne s _ (fun hh => hic hh.symm)]
        · intro i hi
          rw [← hfil] at hi
          have hiC : i ∈ C.filter (keepB s2 src id) := by simpa using hi
          have hiC2 : i ∈ C := List.mem_of_mem_filter hiC
          rw [p5 i (by simpa using hiC), hpay i hiC2]
        · intro i hi hkeep
          rcases List.mem_cons.mp hi with rfl | hiC
          · have hnotin : i ∉ ([] : List Nat) ++ C := by simpa using hcC
            rw [p4 i hc8 hnotin, hs2,
              getD_set_self s _ (by rw [hs8]; exact hc8)]
            exact ⟨rfl, rfl⟩
          · exact p6 i hiC (by rw [hkeq i hiC]; exact hkeep)
      · -- prev points at the last kept slot p: relink p.next around c
        obtain ⟨K0, hK0⟩ := List.getLast?_eq_some_iff.mp hKlast
        subst hK0
        rw [event_remove_loop_remove_some hkc]
        set nxt := (s.getD c emptySlot).next with hnxt
        set s1 := s.set p { s.getD p emptySlot with next := nxt } with hs1
        set s2 := s1.set c { s1.getD c emptySlot with next := none, source := 0 }
          with hs2
        have hpK : p ∈ K0 ++ [p] := by simp
        have hp8 : p < 8 := hbnd p (by simp)
        have hpc : p ≠ c := fun hh => hcK (hh ▸ hpK)
        have hpC : p ∉ C := by
          have := (List.nodup_append.mp hnd).2.2
          exact fun hh => this hpK (List.mem_cons_of_mem c hh)
        have hpK0 : p ∉ K0 := by
          have := (List.nodup_append.mp ((List.nodup_append.mp hnd).1)).2.2
          exact fun hh => this hh (by simp)
        have hs1len : s1.length = 8 := by rw [hs1, List.length_set]; exact hs8
        have hs2len : s2.length = 8 := by rw [hs2, List.length_set]; exact hs1len
        obtain ⟨m, hm1, hm2⟩ := chainSeg_append.mp hK
        rw [chainSeg_cons] at hm2
        obtain ⟨rfl, hm3⟩ := hm2
        rw [chainSeg_nil] at hm3
        have hseg1 : chainSeg s1 ev K0 (some p) := chainSeg_set_not_mem _ hpK0 hm1
        have hplen : p < s.length := by rw [hs8]; exact hp8
        have hseg2 : chainSeg s1 ev (K0 ++ [p]) nxt := by
          refine chainSeg_append.mpr ⟨some p, hseg1, ?_⟩
          rw [chainSeg_cons]
          refine ⟨rfl, ?_⟩
          rw [chainSeg_nil, hs1, getD_set_self s _ hplen]
        have hseg3 : chainSeg s2 ev (K0 ++ [p]) nxt :=
          chainSeg_set_not_mem _ hcK hseg2
        have hC2s2 : chainSeg s2 nxt C none := by
          refine chainSeg_set_not_mem _ hcC ?_
          exact chainSeg_set_not_mem _ hpC hC2
        have hpay : ∀ i ∈ C, payloadAt s2 i = payloadAt s i := by
          intro i hi
          have hic : c ≠ i := fun hh => hcC (hh ▸ hi)
          have hip : p ≠ i := fun hh => hpC (hh ▸ hi)
          rw [hs2, payloadAt_set_ne _ hic, hs1, payloadAt_set_ne _ hip]
        have hkeq : ∀ i ∈ C, keepB s2 src id i = keepB s src id i := by
          intro i hi
          exact keepB_congr src id (hpay i hi)
        have hndKC : ((K0 ++ [p]) ++ C).Nodup := by
          refine List.Nodup.sublist ?_ hnd
          exact List.Sublist.append_left (List.sublist_cons_self c C) _
        have htl1 : (if nxt = none then some p else tl) =
            ((K0 ++ [p]) ++ C).getLast? := by
          cases hn : nxt with
          | none =>
            have hCnil : C = [] :=
              chainSeg_eq_nil_of_none (show chainSeg s2 none C none from hn ▸ hC2s2)
            rw [hCnil]
            simp [hn, List.getLast?_concat]
          | some n =>
            have hCne : C ≠ [] := by
              intro hCnil
              rw [hCnil, chainSeg_nil, hn] at hC2
              simp at hC2
            rw [if_neg (by simp [hn]), htl,
              getLast?_append_of_ne_nil (by simp : c :: C ≠ []),
              getLast?_cons_of_ne_nil hCne, getLast?_append_of_ne_nil hCne]
        have hpost := ih f s2 ev (if nxt = none then some p else tl) nxt
          (K0 ++ [p]) hlenf hs2len hC2s2 hseg3 hndKC
          (by
            intro i hi
            refine hbnd i ?_
            rcases List.mem_append.mp hi with h1 | h2
            · exact List.mem_append.mpr (Or.inl h1)
            · exact List.mem_append.mpr (Or.inr (List.mem_cons_of_mem c h2)))
          htl1
        rw [hKlast] at hpost
        have hfil2 : C.filter (keepB s2 src id) = C.filter (keepB s src id) :=
          List.filter_congr hkeq
        have hfil : (K0 ++ [p]) ++ C.filter (keepB s2 src id) =
            (K0 ++ [p]) ++ (c :: C).filter (keepB s src id) := by
          rw [List.filter_cons_of_neg (by rw [hkc]; simp), hfil2]
        obtain ⟨p1, p2, p3, p4, p5, p6⟩ := hpost
        refine ⟨p1, ?_, ?_, ?_, ?_, ?_⟩
        · rw [← hfil]; exact p2
        · rw [← hfil]; exact p3
        · intro i hi hni
          have hic : i ≠ c := by
            intro hh
            exact hni (by rw [hh]; exact List.mem_append.mpr (Or.inr (by simp)))
          have hip : i ≠ p := by
            intro hh
            exact hni (by rw [hh]; exact List.mem_append.mpr (Or.inl hpK))
          have hni2 : i ∉ (K0 ++ [p]) ++ C := by
            intro hh
            rcases List.mem_append.mp hh with h1 | h2
            · exact hni (List.mem_append.mpr (Or.inl h1))
            · exact hni (List.mem_append.mpr (Or.inr (List.mem_cons_of_mem c h2)))
          rw [p4 i hi hni2, hs2, getD_set_ne _ _ (fun hh => hic hh.symm),
            hs1, getD_set_ne _ _ (fun hh => hip hh.symm)]
        · intro i hi
          rw [← hfil] at hi
          have hic : c ≠ i := by
            intro hh
            rw [← hh] at hi
            rcases List.mem_append.mp hi with h1 | h2
            · exact hcK h1
            · have hcmem : c ∈ C := List.mem_of_mem_filter h2
              have hk2 := List.of_mem_filter h2
              rw [hkeq c hcmem, hkc] at hk2
              simp at hk2
          have hpayK : payloadAt s2 i = payloadAt s i := by
            by_cases hip : p = i
            · subst hip
              rw [hs2, payloadAt_set_ne _ hic, hs1, payloadAt_set_next hplen]
            · rw [hs2, payloadAt_set_ne _ hic, hs1, payloadAt_set_ne _ hip]
          rw [p5 i hi, hpayK]
        · intro i hi hkeep
          rcases List.mem_cons.mp hi with rfl | hiC
          · have hnotin : i ∉ (K0 ++ [p]) ++ C := by
              intro hh
              rcases List.mem_append.mp hh with h1 | h2
              · exact hcK h1
              · exact hcC h2
            rw [p4 i hc8 hnotin, hs2,
              getD_set_self s1 _ (by rw [hs1len]; exact hc8)]
            exact ⟨rfl, rfl⟩
          · exact p6 i hiC (by rw [hkeq i hiC]; exact hkeep)

/-! ### Top-level specifications of the queue operations -/

theorem WF_parts {q : EQState} (h : WF q) :
    q.storage.length = 8 ∧
    chainSeg q.storage q.events (qChain q) none ∧
    (qChain q).Nodup ∧
    (∀ i ∈ qChain q, i < 8) ∧
    q.events_tail = (qChain q).getLast? ∧
    (∀ i, i < 8 → ((q.storage.getD i emptySlot).source ≠ 0 ↔ i ∈ qChain q)) := h

theorem WF_of_parts {q : EQState} {L : List Nat}
    (hlen : q.storage.length = 8)
    (hseg : chainSeg q.storage q.events L none)
    (hnd : L.Nodup)
    (hbnd : ∀ i ∈ L, i < 8)
    (htl : q.events_tail = L.getLast?)
    (hocc : ∀ i, i < 8 → ((q.storage.getD i emptySlot).source ≠ 0 ↔ i ∈ L)) :
    WF q ∧ qChain q = L := by
  have hq : qChain q = L := by
    unfold qChain
    rw [hlen]
    exact chainFrom_eq_of_chainSeg hseg (length_le_of_nodup_lt hnd hbnd)
  exact ⟨⟨hlen, hq ▸ hseg, hq ▸ hnd, hq ▸ hbnd, hq ▸ htl, hq ▸ hocc⟩, hq⟩

theorem absQ_length {q : EQState} : (absQ q).length = (qChain q).length := by
  unfold absQ
  exact List.length_map _ _

/-- event_remove on a well-formed queue returns 0, preserves
well-formedness (in particular consistent head, next and tail links) and
filters out exactly the events matching (src, id), keeping all others in
their original relative order. -/
theorem event_remove_spec {q : EQState} {src id : Nat} (h : WF q) (hsrc : src ≠ 0) :
    (event_remove q src id).2 = 0 ∧
    WF (event_remove q src id).1 ∧
    absQ (event_remove q src id).1 =
      (absQ q).filter (fun e => !(e.1 == src && e.2.1 == id)) := by
  obtain ⟨h1, h2, h3, h4, h5, h6⟩ := WF_parts h
  have hlenL : (qChain q).length ≤ q.storage.length := by
    rw [h1]
    exact length_le_of_nodup_lt h3 h4
  have hpost := event_remove_loop_spec src id (qChain q) q.storage.length
    q.storage q.events q.events_tail q.events []
    hlenL h1 h2 (by rw [chainSeg_nil]) (by simpa using h3) (by simpa using h4)
    (by simpa using h5)
  rw [List.getLast?_nil] at hpost
  obtain ⟨p1, p2, p3, p4, p5, p6⟩ := hpost
  simp only [List.nil_append] at p2 p3 p4 p5
  have hre : event_remove q src id =
      ({ storage := (event_remove_loop q.storage.length q.storage q.events
            q.events_tail q.events none src id).1
         events := (event_remove_loop q.storage.length q.storage q.events
            q.events_tail q.events none src id).2.1
         events_tail := (event_remove_loop q.storage.length q.storage q.events
            q.events_tail q.events none src id).2.2 }, 0) := by
    simp only [event_remove]
    rw [if_neg hsrc]
  set r := event_remove_loop q.storage.length q.storage q.events
    q.events_tail q.events none src id with hr
  set Lk := (qChain q).filter (keepB q.storage src id) with hLk
  have hndk : Lk.Nodup := List.Nodup.sublist (List.filter_sublist _) h3
  have hbndk : ∀ i ∈ Lk, i < 8 := fun i hi => h4 i (List.mem_of_mem_filter hi)
  have hq' := WF_of_parts (q := ⟨r.1, r.2.1, r.2.2⟩) p1 p2 hndk hbndk p3 ?_
  · refine ⟨by rw [hre], by rw [hre]; exact hq'.1, ?_⟩
    rw [hre]
    have habs : absQ ⟨r.1, r.2.1, r.2.2⟩ = Lk.map (payloadAt q.storage) := by
      unfold absQ
      rw [hq'.2]
      exact List.map_congr_left p5
    rw [habs]
    unfold absQ
    rw [List.filter_map]
    refine congrArg _ ?_
    refine (List.filter_congr ?_).symm
    intro i _
    rfl
  · intro i hi8
    constructor
    · intro hsne
      by_contra hnotin
      rcases Decidable.em (i ∈ qChain q) with hin | hnin
      · cases hkb : keepB q.storage src id i with
        | true => exact hnotin (by rw [hLk]; exact List.mem_filter.mpr ⟨hin, hkb⟩)
        | false => exact hsne (p6 i hin hkb).1
      · have hun := p4 i hi8 hnin
        refine hsne ?_
        show (r.1.getD i emptySlot).source = 0
        rw [hun]
        by_contra hs0
        exact hnin ((h6 i hi8).mp hs0)
    · intro hin
      have hpay := p5 i hin
      have hiL : i ∈ qChain q := List.mem_of_mem_filter (by rw [hLk] at hin; exact hin)
      have hsq : (q.storage.getD i emptySlot).source ≠ 0 := (h6 i hi8).mpr hiL
      have hfst : (r.1.getD i emptySlot).source = (q.storage.getD i emptySlot).source :=
        congrArg Prod.fst hpay
      show (r.1.getD i emptySlot).source ≠ 0
      rw [hfst]
      exact hsq

/-- When no queued event matches, the unlink loop changes nothing. -/
theorem event_remove_loop_no_match (src id : Nat) :
    ∀ (C : List Nat) (fuel : Nat) (s : List QEvent) (ev tl cur prev : Option Nat),
    C.length ≤ fuel →
    chainSeg s cur C none →
    (∀ i ∈ C, keepB s src id i = true) →
    event_remove_loop fuel s ev tl cur prev src id = (s, ev, tl) := by
  intro C
  induction C with
  | nil =>
    intro fuel s ev tl cur prev _ hC _
    rw [chainSeg_nil] at hC
    subst hC
    cases fuel <;> rfl
  | cons c C ih =>
    intro fuel s ev tl cur prev hlen hC hkeep
    rw [chainSeg_cons] at hC
    obtain ⟨rfl, hC2⟩ := hC
    cases fuel with
    | zero => simp at hlen
    | succ f =>
      rw [event_remove_loop_keep (hkeep c (by simp))]
      exact ih f s ev tl _ (some c) (by simp at hlen; omega) hC2
        (fun i hi => hkeep i (List.mem_cons_of_mem c hi))

/-- event_remove with no matching pending event leaves the queue state
entirely unchanged. -/
theorem event_remove_no_match {q : EQState} {src id : Nat} (h : WF q) (hsrc : src ≠ 0)
    (hno : ∀ e ∈ absQ q, ¬(e.1 = src ∧ e.2.1 = id)) :
    (event_remove q src id).1 = q := by
  obtain ⟨h1, h2, h3, h4, h5, h6⟩ := WF_parts h
  have hkeep : ∀ i ∈ qChain q, keepB q.storage src id i = true := by
    intro i hi
    have hmem : payloadAt q.storage i ∈ absQ q :=
      List.mem_map.mpr ⟨i, hi, rfl⟩
    have hni := hno _ hmem
    cases hkb : keepB q.storage src id i with
    | true => rfl
    | false =>
      exfalso
      obtain ⟨hs, hd⟩ := keepB_false_iff.mp hkb
      exact hni ⟨hs, hd⟩
  have hlenL : (qChain q).length ≤ q.storage.length := by
    rw [h1]
    exact length_le_of_nodup_lt h3 h4
  have := event_remove_loop_no_match src id (qChain q) q.storage.length
    q.storage q.events q.events_tail q.events none hlenL h2 hkeep
  simp only [event_remove]
  rw [if_neg hsrc, this]

/-- event_add rejects a NULL source as invalid input, leaving the queue
untouched. -/
theorem event_add_null_source (q : EQState) (id val : Nat) :
    event_add q 0 id val = (q, -EINVAL) := by
  simp [event_add]

/-- event_add with every pool slot occupied fails with -ENOMEM and
returns the queue state entirely unchanged. -/
theorem event_add_full {q : EQState} {src id val : Nat} (hsrc : src ≠ 0)
    (hfull : ∀ i, i < q.storage.length → (q.storage.getD i emptySlot).source ≠ 0) :
    event_add q src id val = (q, -ENOMEM) := by
  have hf : findFreeScan q.storage 0 = none := by
    cases hf : findFreeScan q.storage 0 with
    | none => rfl
    | some j =>
      obtain ⟨_, hj, hsrc0⟩ := findFreeScan_some_spec q.storage 0 j hf
      simp only [Nat.sub_zero] at hj hsrc0
      exact absurd hsrc0 (hfull j hj)
  simp only [event_add]
  rw [if_neg hsrc, hf]

theorem event_add_eq_none_tail {q : EQState} {src id val i0 : Nat} (hsrc : src ≠ 0)
    (hf : findFreeScan q.storage 0 = some i0) (ht : q.events_tail = none) :
    event_add q src id val =
      ({ storage := q.storage.set i0 { next := none, source := src, id := id, val := val }
         events := some i0
         events_tail := some i0 }, 0) := by
  simp only [event_add]
  rw [if_neg hsrc, hf, ht]

theorem event_add_eq_some_tail {q : EQState} {src id val i0 t : Nat} (hsrc : src ≠ 0)
    (hf : findFreeScan q.storage 0 = some i0) (ht : q.events_tail = some t) :
    event_add q src id val =
      ({ storage := (q.storage.set i0
            { next := none, source := src, id := id, val := val }).set t
            { (q.storage.set i0
                { next := none, source := src, id := id, val := val }).getD t emptySlot
              with next := some i0 }
         events := q.events
         events_tail := some i0 }, 0) := by
  simp only [event_add]
  rw [if_neg hsrc, hf, ht]

/-- event_add on a well-formed queue with a free pool slot and a
non-NULL source succeeds and appends the event at the tail. -/
theorem event_add_success {q : EQState} {src id val : Nat} (h : WF q) (hsrc : src ≠ 0)
    (hfree : ∃ i, i < 8 ∧ (q.storage.getD i emptySlot).source = 0) :
    (event_add q src id val).2 = 0 ∧
    WF (event_add q src id val).1 ∧
    absQ (event_add q src id val).1 = absQ q ++ [(src, id, val)] := by
  obtain ⟨h1, h2, h3, h4, h5, h6⟩ := WF_parts h
  have hffind : ∃ j, findFreeScan q.storage 0 = some j := by
    cases hf : findFreeScan q.storage 0 with
    | some j => exact ⟨j, rfl⟩
    | none =>
      obtain ⟨i, hi8, hi0⟩ := hfree
      exact absurd hi0 (findFreeScan_none_spec q.storage 0 hf i (by omega))
  obtain ⟨i0, hf⟩ := hffind
  obtain ⟨_, hi0len, hi0src⟩ := findFreeScan_some_spec q.storage 0 i0 hf
  simp only [Nat.sub_zero] at hi0len hi0src
  have hi08 : i0 < 8 := by omega
  have hi0notin : i0 ∉ qChain q := fun hin => ((h6 i0 hi08).mpr hin) hi0src
  set ev : QEvent := { next := none, source := src, id := id, val := val } with hev
  cases ht : q.events_tail with
  | none =>
    have hLnil : qChain q = [] := by
      rw [ht] at h5
      exact List.getLast?_eq_none_iff.mp h5.symm
    rw [event_add_eq_none_tail hsrc hf ht]
    have hsegL : chainSeg (q.storage.set i0 ev) (some i0) [i0] none := by
      rw [chainSeg_cons]
      refine ⟨rfl, ?_⟩
      rw [chainSeg_nil, getD_set_self q.storage ev hi0len]
    have hparts := WF_of_parts
      (q := ⟨q.storage.set i0 ev, some i0, some i0⟩)
      (by rw [List.length_set]; exact h1) hsegL (by simp)
      (by intro i hi; simp at hi; omega)
      (by simp)
      ?_
    · refine ⟨rfl, hparts.1, ?_⟩
      unfold absQ
      rw [hparts.2, hLnil]
      simp only [List.map_cons, List.map_nil, List.nil_append]
      show [payloadAt (q.storage.set i0 ev) i0] = [(src, id, val)]
      unfold payloadAt
      rw [getD_set_self q.storage ev hi0len]
    · intro i hi8
      by_cases hii : i = i0
      · subst hii
        show ((q.storage.set i ev).getD i emptySlot).source ≠ 0 ↔ i ∈ [i]
        rw [getD_set_self q.storage ev hi0len]
        simpa using hsrc
      · show ((q.storage.set i0 ev).getD i emptySlot).source ≠ 0 ↔ i ∈ [i0]
        rw [getD_set_ne q.storage ev (fun hh => hii hh.symm)]
        have := (h6 i hi8)
        rw [hLnil] at this
        simp at this
        simp [hii, this]
  | some t =>
    have hLlast : (qChain q).getLast? = some t := by rw [ht] at h5; exact h5.symm
    obtain ⟨L0, hL0⟩ := List.getLast?_eq_some_iff.mp hLlast
    have htmem : t ∈ qChain q := by rw [hL0]; simp
    have ht8 : t < 8 := h4 t htmem
    have htlen : t < q.storage.length := by omega
    have hti0 : t ≠ i0 := fun hh => hi0notin (hh ▸ htmem)
    have hi0L0 : i0 ∉ L0 := fun hh => hi0notin (by rw [hL0]; simp [hh])
    have htL0 : t ∉ L0 := by
      have := h3
      rw [hL0] at this
      have := (List.nodup_append.mp this).2.2
      exact fun hh => this hh (by simp)
    rw [event_add_eq_some_tail hsrc hf ht]
    set s1 := q.storage.set i0 ev with hs1
    set s2 := s1.set t { s1.getD t emptySlot with next := some i0 } with hs2
    have hs1len : s1.length = 8 := by rw [hs1, List.length_set]; exact h1
    have hs2len : s2.length = 8 := by rw [hs2, List.length_set]; exact hs1len
    have htlen1 : t < s1.length := by omega
    -- decompose the old chain and rebuild it through s2
    have hsegdec := chainSeg_append.mp (hL0 ▸ h2)
    obtain ⟨m, hm1, hm2⟩ := hsegdec
    rw [chainSeg_cons] at hm2
    obtain ⟨rfl, hm3⟩ := hm2
    rw [chainSeg_nil] at hm3
    have hseg1 : chainSeg s1 q.events L0 (some t) := chainSeg_set_not_mem _ hi0L0 hm1
    have hseg2 : chainSeg s2 q.events L0 (some t) := chainSeg_set_not_mem _ htL0 hseg1
    have hsegt : chainSeg s2 (some t) [t] (some i0) := by
      rw [chainSeg_cons]
      refine ⟨rfl, ?_⟩
      rw [chainSeg_nil, hs2, getD_set_self s1 _ htlen1]
    have hsegi0 : chainSeg s2 (some i0) [i0] none := by
      rw [chainSeg_cons]
      refine ⟨rfl, ?_⟩
      rw [chainSeg_nil, hs2, getD_set_ne s1 _ hti0, hs1,
        getD_set_self q.storage ev hi0len]
    have hsegall : chainSeg s2 q.events ((qChain q) ++ [i0]) none := by
      rw [hL0, List.append_assoc]
      refine chainSeg_append.mpr ⟨some t, hseg2, ?_⟩
      have : ([t] : List Nat) ++ [i0] = t :: [i0] := rfl
      rw [this, chainSeg_cons]
      refine ⟨rfl, ?_⟩
      have hnx : (s2.getD t emptySlot).next = some i0 := by
        rw [hs2, getD_set_self s1 _ htlen1]
      rw [hnx]
      exact hsegi0
    have hndall : ((qChain q) ++ [i0]).Nodup := by
      rw [List.nodup_append]
      refine ⟨h3, by simp, ?_⟩
      intro a ha hai
      simp at hai
      exact hi0notin (hai ▸ ha)
    have hpayL : ∀ i ∈ qChain q, payloadAt s2 i = payloadAt q.storage i := by
      intro i hi
      by_cases hit : i = t
      · subst hit
        rw [hs2, payloadAt_set_next htlen1, hs1,
          payloadAt_set_ne _ (fun hh => hti0 hh.symm)]
      · rw [hs2, payloadAt_set_ne _ (fun hh => hit hh.symm)]
        by_cases hii0 : i = i0
        · exact absurd (hii0 ▸ hi) hi0notin
        · rw [hs1, payloadAt_set_ne _ (fun hh => hii0 hh.symm)]
    have hparts := WF_of_parts (q := ⟨s2, q.events, some i0⟩)
      hs2len hsegall hndall
      (by
        intro i hi
        rcases List.mem_append.mp hi with h1m | h2m
        · exact h4 i h1m
        · simp at h2m; omega)
      (by simp [List.getLast?_concat])
      ?_
    · refine ⟨rfl, hparts.1, ?_⟩
      unfold absQ
      rw [hparts.2, List.map_append]
      refine congrArg₂ _ (List.map_congr_left hpayL) ?_
      show [payloadAt s2 i0] = [(src, id, val)]
      unfold payloadAt
      rw [hs2, getD_set_ne s1 _ hti0, hs1, getD_set_self q.storage ev hi0len]
    · intro i hi8
      by_cases hii0 : i = i0
      · subst hii0
        have : (s2.getD i emptySlot) = ev := by
          rw [hs2, getD_set_ne s1 _ hti0, hs1, getD_set_self q.storage ev hi0len]
        rw [this]
        show src ≠ 0 ↔ i ∈ qChain q ++ [i]
        simp [hsrc]
      · by_cases hit : i = t
        · subst hit
          have : (s2.getD i emptySlot).source = (q.storage.getD i emptySlot).source := by
            rw [hs2, getD_set_self s1 _ htlen1, hs1,
              getD_set_ne q.storage ev (fun hh => hii0 hh.symm)]
          rw [this]
          constructor
          · intro _
            exact List.mem_append.mpr (Or.inl htmem)
          · intro _
            exact (h6 i hi8).mpr htmem
        · have : (s2.getD i emptySlot).source = (q.storage.getD i emptySlot).source := by
            rw [hs2, getD_set_ne s1 _ (fun hh => hit hh.symm), hs1,
              getD_set_ne q.storage ev (fun hh => hii0 hh.symm)]
          rw [this]
          rw [h6 i hi8]
          constructor
          · intro hm
            exact List.mem_append.mpr (Or.inl hm)
          · intro hm
            rcases List.mem_append.mp hm with h1m | h2m
            · exact h1m
            · simp at h2m
              exact absurd h2m hii0

/-- event_loop_run_once on an empty well-formed queue changes nothing
and pops nothing. -/
theorem event_loop_run_once_empty {q : EQState} (h : WF q) (habs : absQ q = []) :
    event_loop_run_once q = (q, none) := by
  obtain ⟨_, h2, _, _, _, _⟩ := WF_parts h
  have hchain : qChain q = [] := by
    unfold absQ at habs
    exact List.map_eq_nil_iff.mp habs
  rw [hchain, chainSeg_nil] at h2
  simp [event_loop_run_once, h2]

/-- event_loop_run_once pops exactly the head of a nonempty well-formed
queue: the head payload is handed to the handlers, the slot is freed and
the rest of the queue is untouched. -/
theorem event_loop_run_once_pop {q : EQState} {e : Nat × Nat × Nat}
    {rest : List (Nat × Nat × Nat)} (h : WF q) (habs : absQ q = e :: rest) :
    (event_loop_run_once q).2 = some e ∧
    WF (event_loop_run_once q).1 ∧
    absQ (event_loop_run_once q).1 = rest := by
  obtain ⟨h1, h2, h3, h4, h5, h6⟩ := WF_parts h
  obtain ⟨h0, L1, hLq⟩ : ∃ h0 L1, qChain q = h0 :: L1 := by
    cases hq : qChain q with
    | nil =>
      unfold absQ at habs
      rw [hq] at habs
      simp at habs
    | cons a l => exact ⟨a, l, rfl⟩
  have habs2 : payloadAt q.storage h0 = e ∧ List.map (payloadAt q.storage) L1 = rest := by
    unfold absQ at habs
    rw [hLq] at habs
    simpa using habs
  rw [hLq, chainSeg_cons] at h2
  obtain ⟨hev, h2t⟩ := h2
  have h08 : h0 < 8 := h4 h0 (by rw [hLq]; simp)
  have h0len : h0 < q.storage.length := by omega
  have h0L1 : h0 ∉ L1 := by
    have := h3
    rw [hLq] at this
    exact (List.nodup_cons.mp this).1
  have hre : event_loop_run_once q =
      ({ storage := q.storage.set h0
           { q.storage.getD h0 emptySlot with next := none, source := 0 }
         events := (q.storage.getD h0 emptySlot).next
         events_tail := if (q.storage.getD h0 emptySlot).next = none then none
           else q.events_tail },
       some ((q.storage.getD h0 emptySlot).source, (q.storage.getD h0 emptySlot).id,
         (q.storage.getD h0 emptySlot).val)) := by
    simp only [event_loop_run_once]
    rw [hev]
  set s2 := q.storage.set h0
    { q.storage.getD h0 emptySlot with next := none, source := 0 } with hs2
  have hs2len : s2.length = 8 := by rw [hs2, List.length_set]; exact h1
  have hseg : chainSeg s2 (q.storage.getD h0 emptySlot).next L1 none :=
    chainSeg_set_not_mem _ h0L1 h2t
  have hnd1 : L1.Nodup := by
    have := h3
    rw [hLq] at this
    exact (List.nodup_cons.mp this).2
  have hpay1 : ∀ i ∈ L1, payloadAt s2 i = payloadAt q.storage i := by
    intro i hi
    exact payloadAt_set_ne _ (fun hh => h0L1 (hh ▸ hi))
  have htl2 : (if (q.storage.getD h0 emptySlot).next = none then none
      else q.events_tail) = L1.getLast? := by
    cases hn : (q.storage.getD h0 emptySlot).next with
    | none =>
      have : L1 = [] := chainSeg_eq_nil_of_none
        (show chainSeg s2 none L1 none from hn ▸ hseg)
      simp [this]
    | some n =>
      have hne : L1 ≠ [] := by
        intro hc
        rw [hc, chainSeg_nil, hn] at h2t
        simp at h2t
      rw [if_neg (by simp [hn]), h5, hLq, getLast?_cons_of_ne_nil hne]
  have hparts := WF_of_parts
    (q := ⟨s2, (q.storage.getD h0 emptySlot).next,
      if (q.storage.getD h0 emptySlot).next = none then none else q.events_tail⟩)
    hs2len hseg hnd1
    (fun i hi => h4 i (by rw [hLq]; exact List.mem_cons_of_mem h0 hi))
    htl2
    ?_
  · rw [hre]
    refine ⟨?_, hparts.1, ?_⟩
    · show some ((q.storage.getD h0 emptySlot).source, (q.storage.getD h0 emptySlot).id,
        (q.storage.getD h0 emptySlot).val) = some e
      rw [← habs2.1]
      rfl
    · unfold absQ
      rw [hparts.2, ← habs2.2]
      exact List.map_congr_left hpay1
  · intro i hi8
    by_cases hih : i = h0
    · subst hih
      show ((s2.getD i emptySlot)).source ≠ 0 ↔ i ∈ L1
      rw [hs2, getD_set_self q.storage _ h0len]
      simpa using h0L1
    · show ((s2.getD i emptySlot)).source ≠ 0 ↔ i ∈ L1
      rw [hs2, getD_set_ne q.storage _ (fun hh => hih hh.symm)]
      have := h6 i hi8
      rw [hLq] at this
      rw [this]
      constructor
      · intro hm
        rcases List.mem_cons.mp hm with h1m | h2m
        · exact absurd h1m hih
        · exact h2m
      · exact List.mem_cons_of_mem h0

/-- Enqueue a list of (source, id, value) events in order, collecting
the status of each event_add call. -/
def addAll (q : EQState) : List (Nat × Nat × Nat) → EQState × List Int
  | [] => (q, [])
  | e :: es =>
    let r := event_add q e.1 e.2.1 e.2.2
    let r2 := addAll r.1 es
    (r2.1, r.2 :: r2.2)

/-- The sequence of event payloads popped (each handed to the handlers
exactly once) by n iterations of the event loop. -/
def dispatchSeq (q : EQState) : Nat → List (Nat × Nat × Nat)
  | 0 => []
  | n + 1 =>
    match event_loop_run_once q with
    | (q2, some e) => e :: dispatchSeq q2 n
    | (_, none) => []

theorem free_slot_of_length_lt {q : EQState} (h : WF q)
    (hlt : (absQ q).length < 8) :
    ∃ i, i < 8 ∧ (q.storage.getD i emptySlot).source = 0 := by
  have hql : (qChain q).length < 8 := by rw [← absQ_length]; exact hlt
  obtain ⟨i, hi8, hinot⟩ := exists_not_mem_of_length_lt hql
  refine ⟨i, hi8, ?_⟩
  by_contra hsne
  exact hinot (((WF_parts h).2.2.2.2.2 i hi8).mp hsne)

/-- Enqueuing a list of events with non-NULL sources into a well-formed
queue with enough room succeeds for every event and appends them in
order. -/
theorem addAll_spec :
    ∀ (es : List (Nat × Nat × Nat)) (q : EQState), WF q →
    (∀ e ∈ es, e.1 ≠ 0) →
    (absQ q).length + es.length ≤ 8 →
    (addAll q es).2 = List.replicate es.length (0 : Int) ∧
    WF (addAll q es).1 ∧
    absQ (addAll q es).1 = absQ q ++ es := by
  intro es
  induction es with
  | nil =>
    intro q h _ _
    exact ⟨rfl, h, by simp [addAll]⟩
  | cons e es ih =>
    intro q h hnz hlen
    have hfree : ∃ i, i < 8 ∧ (q.storage.getD i emptySlot).source = 0 :=
      free_slot_of_length_lt h (by simp at hlen; omega)
    obtain ⟨ha2, haWF, habs⟩ := event_add_success h (hnz e (by simp)) hfree
    have hlen2 : (absQ (event_add q e.1 e.2.1 e.2.2).1).length + es.length ≤ 8 := by
      rw [habs]
      simp at hlen ⊢
      omega
    obtain ⟨hi2, hiWF, hiabs⟩ := ih (event_add q e.1 e.2.1 e.2.2).1 haWF
      (fun x hx => hnz x (List.mem_cons_of_mem e hx)) hlen2
    simp only [addAll]
    refine ⟨?_, hiWF, ?_⟩
    · simp [ha2, hi2, List.replicate]
    · rw [hiabs, habs]
      simp

/-- Draining a well-formed queue pops exactly its contents, in FIFO
order: every queued event is dispatched exactly once. -/
theorem dispatchSeq_spec :
    ∀ (E : List (Nat × Nat × Nat)) (q : EQState), WF q → absQ q = E →
    dispatchSeq q E.length = E := by
  intro E
  induction E with
  | nil => intro q _ _; rfl
  | cons e E ih =>
    intro q h habs
    obtain ⟨hp, hWF, habs2⟩ := event_loop_run_once_pop h habs
    have hsplit : event_loop_run_once q = ((event_loop_run_once q).1, some e) := by
      rw [← hp]
    simp only [dispatchSeq, List.length_cons]
    rw [hsplit]
    exact congrArg (List.cons e) (ih (event_loop_run_once q).1 hWF habs2)

/-! ### Handler registry and dispatch (event_handler_add / event_run_handlers)

A registered handler holds a source routing key, an optional mask/id
filter, a callback pointer and a context pointer.  Callback and context
pointers are opaque: they are modelled as Nat identities (0 = NULL); an
invocation is recorded as the tuple (handler, context, id, val).  The C
also rejects a NULL struct pointer for the registration itself, which a
value-level model cannot represent. -/

structure EventHandler where
  source : Nat
  id : Nat
  mask : Nat
  handler : Nat
  context : Nat
deriving DecidableEq, Repr

/-- event_handler_add: reject a NULL source or NULL callback, otherwise
push the registration at the HEAD of the registry list
(hdlr->next = handlers; handlers = hdlr). -/
def event_handler_add (hs : List EventHandler) (h : EventHandler) :
    List EventHandler × Int :=
  if h.source = 0 ∨ h.handler = 0 then (hs, -EINVAL)
  else (h :: hs, 0)

/-- The dispatch filter: the source must match, and a mask of 0 matches
every id, otherwise (id AND mask) must equal the registered id. -/
def handlerMatches (h : EventHandler) (src id : Nat) : Bool :=
  h.source == src && (h.mask == 0 || (id &&& h.mask) == h.id)

/-- event_run_handlers: walk the registry from its head, skipping
handlers whose source or mask/id filter does not match, and invoke the
rest in list order with the event id and value. -/
def event_run_handlers (hs : List EventHandler) (src id val : Nat) :
    List (Nat × Nat × Nat × Nat) :=
  match hs with
  | [] => []
  | h :: t =>
    if h.source ≠ src then event_run_handlers t src id val
    else if h.mask ≠ 0 ∧ (id &&& h.mask) ≠ h.id then event_run_handlers t src id val
    else (h.handler, h.context, id, val) :: event_run_handlers t src id val

/-- Register a list of handlers left to right via event_handler_add. -/
def registerAll (hs : List EventHandler) : List EventHandler → List EventHandler
  | [] => hs
  | h :: t => registerAll (event_handler_add hs h).1 t

/-- Dispatch invokes exactly the matching handlers, in registry list
order, passing the event id and value. -/
theorem event_run_handlers_eq_filter (hs : List EventHandler) (src id val : Nat) :
    event_run_handlers hs src id val =
      (hs.filter (fun h => handlerMatches h src id)).map
        (fun h => (h.handler, h.context, id, val)) := by
  induction hs with
  | nil => rfl
  | cons h t ih =>
    simp only [event_run_handlers]
    by_cases h1 : h.source = src
    · by_cases h2 : h.mask = 0
      · rw [if_neg (by simp [h1]), if_neg (by simp [h2]),
          List.filter_cons_of_pos (by simp [handlerMatches, h1, h2])]
        simp [ih]
      · by_cases h3 : (id &&& h.mask) = h.id
        · rw [if_neg (by simp [h1]), if_neg (by simp [h3]),
            List.filter_cons_of_pos (by simp [handlerMatches, h1, h3])]
          simp [ih]
        · rw [if_neg (by simp [h1]), if_pos ⟨h2, h3⟩,
            List.filter_cons_of_neg (by simp [handlerMatches, h2, h3])]
          exact ih
    · rw [if_pos h1, List.filter_cons_of_neg (by simp [handlerMatches, h1])]
      exact ih

/-- Registering a list of valid handlers builds the registry in REVERSE
registration order (each add pushes at the head). -/
theorem registerAll_eq_reverse :
    ∀ (regs hs : List EventHandler),
    (∀ h ∈ regs, h.source ≠ 0 ∧ h.handler ≠ 0) →
    registerAll hs regs = regs.reverse ++ hs := by
  intro regs
  induction regs with
  | nil => intro hs _; simp [registerAll]
  | cons h t ih =>
    intro hs hv
    have hh := hv h (by simp)
    have he : (event_handler_add hs h).1 = h :: hs := by
      simp only [event_handler_add]
      rw [if_neg (by push_neg; exact hh)]
    simp only [registerAll]
    rw [he, ih (h :: hs) (fun x hx => hv x (List.mem_cons_of_mem h hx))]
    simp

/-! ### Door controller state machine (src/firmware/door-controller.c)

The state machine is modelled as a pure step function emitting a list of
effects for the external collaborators (timers, triggers, the event
queue, the credential validator).  The check_key validator callback is a
field of the controller (context folded into the closure); a call to it
is additionally recorded as a check_key_call effect.  DEBUG-only code
(state_name printing, the DOOR_CTRL_EVENT_STATE_CHANGED debug event) is
compiled out, as in the release build.

Constants defined in firmware headers that are not among the provided
sources are modelled from the spec, see the individual comments. -/

inductive DoorState
  | idle
  | reading_pin
  | opening
  | rejected
  | timeout
  | error
deriving DecidableEq, Repr

/-- Modelled from the spec: the door-controller and reader event codes
live in headers that are not in the provided sources; the state machine
only needs them to be distinct, so they get arbitrary distinct values. -/
def DOOR_CTRL_EVENT_STATE_CHANGED : Nat := 0

/-- Modelled from the spec: see DOOR_CTRL_EVENT_STATE_CHANGED. -/
def DOOR_CTRL_EVENT_BUZZER_FINISHED : Nat := 1

/-- Modelled from the spec: see DOOR_CTRL_EVENT_STATE_CHANGED. -/
def DOOR_CTRL_EVENT_IDLE_TIMEOUT : Nat := 2

/-- Modelled from the spec: see DOOR_CTRL_EVENT_STATE_CHANGED. -/
def WIEGAND_READER_ERROR : Nat := 3

/-- Modelled from the spec: see DOOR_CTRL_EVENT_STATE_CHANGED. -/
def WIEGAND_READER_EVENT_KEY : Nat := 4

/-- Modelled from the spec: see DOOR_CTRL_EVENT_STATE_CHANGED. -/
def WIEGAND_READER_EVENT_CARD : Nat := 5

/-- Modelled from the spec: keypad digits are the key codes 0..9 (one
key per nibble); ENTER is a distinct non-digit code from a header not in
the provided sources. -/
def WIEGAND_KEY_ENTER : Nat := 13

/-- Modelled from the spec: ESC is a distinct non-digit key code, see
WIEGAND_KEY_ENTER. -/
def WIEGAND_KEY_ESC : Nat := 27

/-- Modelled from the spec: credential type codes in the order fixed by
the access-record permission byte: none = 0, pin = 1, card = 2,
pin+card = 3. -/
def DOOR_CTRL_PIN : Nat := 1

/-- Modelled from the spec: see DOOR_CTRL_PIN. -/
def DOOR_CTRL_CARD : Nat := 2

/-- Modelled from the spec: see DOOR_CTRL_PIN. -/
def DOOR_CTRL_CARD_AND_PIN : Nat := 3

/-- DOOR_OPEN_FROM_READER, the reader-sourced open-status bit index. -/
def DOOR_OPEN_FROM_READER : Nat := 0

/-- DOOR_OPEN_FROM_BUTTON, the button-sourced open-status bit index. -/
def DOOR_OPEN_FROM_BUTTON : Nat := 1

/-- IDLE_TIMEOUT from the C source (ms). -/
def IDLE_TIMEOUT : Nat := 10000

/-- BUZZER_ERROR_DURATION from the C source (ms). -/
def BUZZER_ERROR_DURATION : Nat := 400

/-- buzzer_rejected_seq from the C source. -/
def buzzer_rejected_seq : List Nat := [0, 200, 600, 200, 600, 200, 600]

/-- buzzer_timeout_seq from the C source. -/
def buzzer_timeout_seq : List Nat := [0, 100, 200, 100, 200, 100, 200]

/-- buzzer_accepted_seq from the C source. -/
def buzzer_accepted_seq : List Nat := [0, 100, 200]

/-- The three trigger actuators owned by a door controller. -/
inductive Trig
  | door_open
  | led
  | buzzer
deriving DecidableEq, Repr

/-- The calls a door controller makes into its external collaborators. -/
inductive Effect
  | timer_deschedule
  | timer_schedule_in (ms : Nat)
  | event_remove_pending (id : Nat)
  | trigger_set (t : Trig) (level : Nat)
  | trigger_start (t : Trig) (duration : Nat)
  | trigger_start_seq (t : Trig) (seq : List Nat)
  | check_key_call (ctype : Nat) (key : Nat)
deriving DecidableEq, Repr

/-- BIT(n) from utils.h. -/
def BIT (n : Nat) : Nat := 1 <<< n

/-- The mutable state of struct door_ctrl used by the state machine:
door id, FSM state, PIN accumulator (uint32), open-status bitmask
(uint8), configured open_time and the optional check_key validator. -/
structure DoorCtrl where
  door_id : Nat
  state : DoorState
  pin : Nat
  open_status : Nat
  open_time : Nat
  check_key : Option (Nat → Nat → Nat → Int)

/-- door_ctrl_set_state: do nothing if the state does not change; on
entering IDLE, REJECTED, OPENING or ERROR (TIMEOUT is absent from the
switch in the C source) deschedule the idle timer and remove any
pending idle-timeout event from the queue. -/
def door_ctrl_set_state (dc : DoorCtrl) (st : DoorState) : DoorCtrl × List Effect :=
  if dc.state = st then (dc, [])
  else
    let dc2 := { dc with state := st }
    match st with
    | .idle | .rejected | .opening | .error =>
      (dc2, [.timer_deschedule, .event_remove_pending DOOR_CTRL_EVENT_IDLE_TIMEOUT])
    | _ => (dc2, [])

/-- door_ctrl_check_key: a missing validator fails with -ENOENT,
otherwise the validator decides (0 = accepted). -/
def door_ctrl_check_key (dc : DoorCtrl) (ctype key : Nat) : Int :=
  match dc.check_key with
  | none => -ENOENT
  | some f => f dc.door_id ctype key

/-- door_ctrl_set_open: set or clear one reason bit of the uint8
open_status; if the truth value of the aggregate is unchanged, return
without any trigger call; on a rising edge switch the open relay and
LED on, on a falling edge start their timed release over open_time. -/
def door_ctrl_set_open (dc : DoorCtrl) (source status : Nat) : DoorCtrl × List Effect :=
  let old := dc.open_status
  let ns := if status ≠ 0 then (old ||| BIT source) % 256
            else old &&& (255 ^^^ (BIT source % 256))
  let dc2 := { dc with open_status := ns }
  if (old ≠ 0) ↔ (ns ≠ 0) then (dc2, [])
  else if ns ≠ 0 then
    (dc2, [.trigger_set .door_open 1, .trigger_set .led 1])
  else
    (dc2, [.trigger_start .door_open dc.open_time, .trigger_start .led dc.open_time])

/-- door_ctrl_open: enter OPENING, pulse the reader open-status bit
(set then immediately clear, the release timing being owned by the
trigger), start the accepted buzzer sequence. -/
def door_ctrl_open (dc : DoorCtrl) : DoorCtrl × List Effect :=
  let r1 := door_ctrl_set_state dc .opening
  let r2 := door_ctrl_set_open r1.1 DOOR_OPEN_FROM_READER 1
  let r3 := door_ctrl_set_open r2.1 DOOR_OPEN_FROM_READER 0
  (r3.1, r1.2 ++ r2.2 ++ r3.2 ++ [.trigger_start_seq .buzzer buzzer_accepted_seq])

/-- door_ctrl_reject: enter REJECTED and start the rejected buzzer
sequence. -/
def door_ctrl_reject (dc : DoorCtrl) : DoorCtrl × List Effect :=
  let r := door_ctrl_set_state dc .rejected
  (r.1, r.2 ++ [.trigger_start_seq .buzzer buzzer_rejected_seq])

/-- door_ctrl_timeout: enter TIMEOUT and start the timeout buzzer
sequence. -/
def door_ctrl_timeout (dc : DoorCtrl) : DoorCtrl × List Effect :=
  let r := door_ctrl_set_state dc .timeout
  (r.1, r.2 ++ [.trigger_start_seq .buzzer buzzer_timeout_seq])

/-- door_ctrl_error: enter ERROR and buzz for BUZZER_ERROR_DURATION. -/
def door_ctrl_error (dc : DoorCtrl) : DoorCtrl × List Effect :=
  let r := door_ctrl_set_state dc .error
  (r.1, r.2 ++ [.trigger_start .buzzer BUZZER_ERROR_DURATION])

/-- on_event: the door-controller event handler.  The event value is a
32-bit union member, so it is truncated to 32 bits where the C reads
val.u; the uint8_t key variable truncates it to 8 bits. -/
def on_event (dc : DoorCtrl) (event val : Nat) : DoorCtrl × List Effect :=
  if event = DOOR_CTRL_EVENT_STATE_CHANGED then (dc, [])
  else if event = DOOR_CTRL_EVENT_BUZZER_FINISHED then door_ctrl_set_state dc .idle
  else if event = DOOR_CTRL_EVENT_IDLE_TIMEOUT then door_ctrl_timeout dc
  else if event = WIEGAND_READER_ERROR then door_ctrl_error dc
  else if event = WIEGAND_READER_EVENT_KEY ∨ event = WIEGAND_READER_EVENT_CARD then
    let v := val % 4294967296
    match dc.state with
    | .idle =>
      if event = WIEGAND_READER_EVENT_KEY then
        if v = WIEGAND_KEY_ENTER then door_ctrl_error dc
        else if v = WIEGAND_KEY_ESC then (dc, [])
        else
          let dc2 := { dc with pin := 0xFFFFFFF0 ||| (v &&& 0xF) }
          let r := door_ctrl_set_state dc2 .reading_pin
          (r.1, r.2 ++ [.timer_schedule_in IDLE_TIMEOUT])
      else
        if door_ctrl_check_key dc DOOR_CTRL_CARD v = 0 then
          let r := door_ctrl_open dc
          (r.1, .check_key_call DOOR_CTRL_CARD v :: r.2)
        else
          let r := door_ctrl_reject dc
          (r.1, .check_key_call DOOR_CTRL_CARD v :: r.2)
    | .reading_pin =>
      let dc2 := if event = WIEGAND_READER_EVENT_CARD
        then { dc with pin := dc.pin ^^^ v } else dc
      let key : Nat := if event = WIEGAND_READER_EVENT_CARD
        then WIEGAND_KEY_ENTER else v % 256
      if key = WIEGAND_KEY_ENTER then
        let ctype := if event = WIEGAND_READER_EVENT_CARD
          then DOOR_CTRL_CARD_AND_PIN else DOOR_CTRL_PIN
        if door_ctrl_check_key dc2 ctype dc2.pin = 0 then
          let r := door_ctrl_open dc2
          ({ r.1 with pin := 0 }, .check_key_call ctype dc2.pin :: r.2)
        else
          let r := door_ctrl_reject dc2
          ({ r.1 with pin := 0 }, .check_key_call ctype dc2.pin :: r.2)
      else if key = WIEGAND_KEY_ESC then
        door_ctrl_set_state dc2 .idle
      else
        ({ dc2 with pin := (((dc2.pin <<< 4) % 4294967296) &&& 0xFFFFFFF0)
            ||| (key &&& 0xF) },
         [.timer_schedule_in IDLE_TIMEOUT])
    | _ => (dc, [])
  else door_ctrl_error dc

/-- Feed a list of (event, value) pairs through on_event, accumulating
all emitted effects. -/
def runEvents (dc : DoorCtrl) : List (Nat × Nat) → DoorCtrl × List Effect
  | [] => (dc, [])
  | e :: es =>
    let r := on_event dc e.1 e.2
    let r2 := runEvents r.1 es
    (r2.1, r.2 ++ r2.2)

/-! ### Host-side access-record codec (src/unnamed/part_000)

The record layout is the 5-byte wire format: key as u32 little-endian,
then the permission byte (low 2 bits credential type, bit 2 invalid
marker, high 4 bits door bitmask).  The blobmsg plumbing and the record
index are not modelled; an absent optional argument is none. -/

/-- ACCESS_TYPE_NONE; the numbering of the four codes is fixed by the
access_record_types lookup table in the source (index = perms AND 3). -/
def ACCESS_TYPE_NONE : Nat := 0

/-- ACCESS_TYPE_PIN, see ACCESS_TYPE_NONE. -/
def ACCESS_TYPE_PIN : Nat := 1

/-- ACCESS_TYPE_CARD, see ACCESS_TYPE_NONE. -/
def ACCESS_TYPE_CARD : Nat := 2

/-- ACCESS_TYPE_CARD_AND_PIN, see ACCESS_TYPE_NONE. -/
def ACCESS_TYPE_CARD_AND_PIN : Nat := 3

/-- access_record_types from the source. -/
def access_record_types : List String := ["none", "pin", "card", "pin+card"]

/-- sscanf(str, "%u", &card): parse a leading run of decimal digits,
failing when there is none; the parsed value is 32-bit unsigned. -/
def parse_u32 (s : List Char) : Option Nat :=
  let ds := s.takeWhile Char.isDigit
  if ds.isEmpty then none
  else some ((ds.foldl (fun a c => a * 10 + (c.toNat - 48)) 0) % 4294967296)

/-- The PIN-packing loop of write_set_access_record_query:
pin = 0xFFFFFFFF, then for each character digit = (uint8)(c - 48)
(8-bit wraparound), reject a non-digit (digit > 9), otherwise
pin = (pin << 4) | digit on uint32. -/
def packPin (s : List Char) : Option Nat :=
  s.foldlM
    (fun pin c =>
      let digit := (c.toNat + 208) % 256
      if digit > 9 then none
      else some (((pin <<< 4) % 4294967296) ||| digit))
    0xFFFFFFFF

/-- write_set_access_record_query, restricted to the 5 record bytes it
writes: credential type from which optional arguments are present, the
card number parsed with sscanf, the PIN nibble-packed, the key stored as
card XOR pin in little-endian, and the permission byte
(doors << 4) | type.  A parse failure (UBUS_STATUS_INVALID_ARGUMENT)
is none. -/
def write_set_access_record_query (str_pin str_card : Option (List Char))
    (doorsArg : Option Nat) : Option (List Nat) :=
  let doors := match doorsArg with
    | some d => d &&& 0xF
    | none => 0
  let ctype :=
    if str_card.isSome ∧ str_pin.isSome then ACCESS_TYPE_CARD_AND_PIN
    else if str_card.isSome then ACCESS_TYPE_CARD
    else if str_pin.isSome then ACCESS_TYPE_PIN
    else ACCESS_TYPE_NONE
  let cardRes : Option Nat :=
    if ctype = ACCESS_TYPE_CARD ∨ ctype = ACCESS_TYPE_CARD_AND_PIN then
      parse_u32 (str_card.getD [])
    else some 0
  match cardRes with
  | none => none
  | some card =>
    let pinRes : Option Nat :=
      if ctype = ACCESS_TYPE_PIN ∨ ctype = ACCESS_TYPE_CARD_AND_PIN then
        packPin (str_pin.getD [])
      else some 0
    match pinRes with
    | none => none
    | some pin =>
      let key := card ^^^ pin
      some [key % 256, (key >>> 8) % 256, (key >>> 16) % 256, (key >>> 24) % 256,
        ((doors <<< 4) ||| ctype) % 256]

/-- The blobmsg fields read_get_access_record_response adds: the type
string, and (except for an empty record) the key string and the door
bitmask. -/
structure DecodedRecord where
  rtype : String
  key : Option String
  doors : Option Nat
deriving DecidableEq, Repr

/-- The PIN printing loop: nibbles from most significant down, skipping
the 0xF no-digit sentinel, each remaining nibble printed as digit plus
48. -/
def pinDigits (key : Nat) : List Char :=
  (List.range 8).reverse.filterMap (fun i =>
    let d := (key >>> (4 * i)) &&& 0xF
    if d = 0xF then none else some (Char.ofNat (d + 48)))

/-- read_get_access_record_response on the 5 record bytes: the perms
byte is read at raw byte offset 4, an invalid record (bit 2 set) is
treated as empty, the type string is looked up by the low 2 bits; an
empty record reports only its type; a pin key prints the non-sentinel
nibbles; a card key prints the 32-bit value in decimal through an
8-character snprintf buffer; doors is the high nibble of perms. -/
def read_get_access_record_response (rec : List Nat) : DecodedRecord :=
  let perms0 := rec.getD 4 0
  let key := rec.getD 0 0 + 256 * rec.getD 1 0 + 65536 * rec.getD 2 0 +
    16777216 * rec.getD 3 0
  let perms := if perms0 &&& (BIT 2) ≠ 0 then 0 else perms0
  let tname := access_record_types.getD (perms &&& 0x3) ""
  if perms &&& 0x3 = ACCESS_TYPE_NONE then
    { rtype := tname, key := none, doors := none }
  else
    let skey := if perms &&& 0x3 = ACCESS_TYPE_PIN then String.mk (pinDigits key)
      else String.mk ((Nat.repr key).toList.take 8)
    { rtype := tname, key := some skey, doors := some (perms >>> 4) }

theorem door_ctrl_set_state_state (dc : DoorCtrl) (st : DoorState) :
    (door_ctrl_set_state dc st).1.state = st := by
  simp only [door_ctrl_set_state]
  by_cases h : dc.state = st
  · rw [if_pos h]; exact h
  · rw [if_neg h]
    split <;> rfl

theorem set_open_state (dc : DoorCtrl) (source status : Nat) :
    (door_ctrl_set_open dc source status).1.state = dc.state := by
  simp only [door_ctrl_set_open]
  repeat' split
  all_goals rfl

theorem door_ctrl_open_state (dc : DoorCtrl) :
    (door_ctrl_open dc).1.state = DoorState.opening := by
  simp only [door_ctrl_open]
  rw [set_open_state, set_open_state, door_ctrl_set_state_state]

theorem door_ctrl_reject_state (dc : DoorCtrl) :
    (door_ctrl_reject dc).1.state = DoorState.rejected := by
  simp only [door_ctrl_reject]
  rw [door_ctrl_set_state_state]

theorem door_ctrl_timeout_state (dc : DoorCtrl) :
    (door_ctrl_timeout dc).1.state = DoorState.timeout := by
  simp only [door_ctrl_timeout]
  rw [door_ctrl_set_state_state]

theorem door_ctrl_timeout_buzzer (dc : DoorCtrl) :
    Effect.trigger_start_seq Trig.buzzer buzzer_timeout_seq ∈ (door_ctrl_timeout dc).2 := by
  simp [door_ctrl_timeout]

theorem on_event_digit_idle (dc : DoorCtrl) (d : Nat)
    (hst : dc.state = DoorState.idle) (hd : d ≤ 9) :
    on_event dc WIEGAND_READER_EVENT_KEY d =
      ({ dc with pin := 0xFFFFFFF0 ||| d, state := DoorState.reading_pin },
       [Effect.timer_schedule_in IDLE_TIMEOUT]) := by
  have hvd : d % 4294967296 = d := Nat.mod_eq_of_lt (by omega)
  have hd4 : d &&& 0xF = d := by interval_cases d <;> rfl
  have h13 : d ≠ WIEGAND_KEY_ENTER := by unfold WIEGAND_KEY_ENTER; omega
  have h27 : d ≠ WIEGAND_KEY_ESC := by unfold WIEGAND_KEY_ESC; omega
  simp only [on_event, WIEGAND_READER_EVENT_KEY, DOOR_CTRL_EVENT_STATE_CHANGED,
    DOOR_CTRL_EVENT_BUZZER_FINISHED, DOOR_CTRL_EVENT_IDLE_TIMEOUT,
    WIEGAND_READER_ERROR, WIEGAND_READER_EVENT_CARD]
  norm_num
  rw [hst]
  simp only [hvd]
  rw [if_neg h13, if_neg h27]
  simp only [door_ctrl_set_state, hd4]
  norm_num
  constructor
  · rfl
  · rfl

theorem on_event_digit_reading (dc : DoorCtrl) (d : Nat)
    (hst : dc.state = DoorState.reading_pin) (hd : d ≤ 9) :
    on_event dc WIEGAND_READER_EVENT_KEY d =
      ({ dc with pin := (((dc.pin <<< 4) % 4294967296) &&& 0xFFFFFFF0) ||| d },
       [Effect.timer_schedule_in IDLE_TIMEOUT]) := by
  have hkey : d % 4294967296 % 256 = d := by
    rw [Nat.mod_eq_of_lt (by omega), Nat.mod_eq_of_lt (by omega)]
  have hkey2 : d % 256 = d := Nat.mod_eq_of_lt (by omega)
  have hd4 : d &&& 0xF = d := by interval_cases d <;> rfl
  have h13 : d ≠ WIEGAND_KEY_ENTER := by unfold WIEGAND_KEY_ENTER; omega
  have h27 : d ≠ WIEGAND_KEY_ESC := by unfold WIEGAND_KEY_ESC; omega
  simp only [on_event, WIEGAND_READER_EVENT_KEY, DOOR_CTRL_EVENT_STATE_CHANGED,
    DOOR_CTRL_EVENT_BUZZER_FINISHED, DOOR_CTRL_EVENT_IDLE_TIMEOUT,
    WIEGAND_READER_ERROR, WIEGAND_READER_EVENT_CARD]
  norm_num
  rw [hst]
  simp only [hkey, hkey2]
  rw [if_neg h13, if_neg h27]
  simp only [hd4]

theorem on_event_enter_reading (dc : DoorCtrl) (f : Nat → Nat → Nat → Int)
    (hst : dc.state = DoorState.reading_pin) (hck : dc.check_key = some f) :
    Effect.check_key_call DOOR_CTRL_PIN dc.pin ∈
      (on_event dc WIEGAND_READER_EVENT_KEY WIEGAND_KEY_ENTER).2 ∧
    (on_event dc WIEGAND_READER_EVENT_KEY WIEGAND_KEY_ENTER).1.pin = 0 ∧
    (f dc.door_id DOOR_CTRL_PIN dc.pin = 0 →
      (on_event dc WIEGAND_READER_EVENT_KEY WIEGAND_KEY_ENTER).1.state =
        DoorState.opening) ∧
    (f dc.door_id DOOR_CTRL_PIN dc.pin ≠ 0 →
      (on_event dc WIEGAND_READER_EVENT_KEY WIEGAND_KEY_ENTER).1.state =
        DoorState.rejected) := by
  simp only [on_event, WIEGAND_READER_EVENT_KEY, DOOR_CTRL_EVENT_STATE_CHANGED,
    DOOR_CTRL_EVENT_BUZZER_FINISHED, DOOR_CTRL_EVENT_IDLE_TIMEOUT,
    WIEGAND_READER_ERROR, WIEGAND_READER_EVENT_CARD, WIEGAND_KEY_ENTER]
  norm_num
  rw [hst]
  norm_num
  simp only [door_ctrl_check_key, hck]
  by_cases hacc : f dc.door_id DOOR_CTRL_PIN dc.pin = 0
  · rw [if_pos hacc]
    refine ⟨List.mem_cons_self _ _, rfl, ?_, ?_⟩
    · intro _
      show (door_ctrl_open dc).1.state = DoorState.opening
      exact door_ctrl_open_state dc
    · intro hne
      exact absurd hacc hne
  · rw [if_neg hacc]
    refine ⟨List.mem_cons_self _ _, rfl, ?_, ?_⟩
    · intro hz
      exact absurd hz hacc
    · intro _
      show (door_ctrl_reject dc).1.state = DoorState.rejected
      exact door_ctrl_reject_state dc

theorem on_event_idle_timeout_eq (dc : DoorCtrl) (val : Nat) :
    on_event dc DOOR_CTRL_EVENT_IDLE_TIMEOUT val = door_ctrl_timeout dc := by
  simp only [on_event, DOOR_CTRL_EVENT_STATE_CHANGED, DOOR_CTRL_EVENT_BUZZER_FINISHED,
    DOOR_CTRL_EVENT_IDLE_TIMEOUT]
  norm_num

theorem on_event_card_idle_null (dc : DoorCtrl) (val : Nat)
    (hst : dc.state = DoorState.idle) (hck : dc.check_key = none) :
    (on_event dc WIEGAND_READER_EVENT_CARD val).1.state = DoorState.rejected := by
  simp only [on_event, WIEGAND_READER_EVENT_KEY, DOOR_CTRL_EVENT_STATE_CHANGED,
    DOOR_CTRL_EVENT_BUZZER_FINISHED, DOOR_CTRL_EVENT_IDLE_TIMEOUT,
    WIEGAND_READER_ERROR, WIEGAND_READER_EVENT_CARD]
  norm_num
  rw [hst]
  simp only [door_ctrl_check_key, hck]
  rw [if_neg (by unfold ENOENT; decide)]
  show (door_ctrl_reject dc).1.state = DoorState.rejected
  exact door_ctrl_reject_state dc

theorem on_event_enter_reading_null (dc : DoorCtrl)
    (hst : dc.state = DoorState.reading_pin) (hck : dc.check_key = none) :
    (on_event dc WIEGAND_READER_EVENT_KEY WIEGAND_KEY_ENTER).1.state =
      DoorState.rejected := by
  simp only [on_event, WIEGAND_READER_EVENT_KEY, DOOR_CTRL_EVENT_STATE_CHANGED,
    DOOR_CTRL_EVENT_BUZZER_FINISHED, DOOR_CTRL_EVENT_IDLE_TIMEOUT,
    WIEGAND_READER_ERROR, WIEGAND_READER_EVENT_CARD, WIEGAND_KEY_ENTER]
  norm_num
  rw [hst]
  norm_num
  simp only [door_ctrl_check_key, hck]
  rw [if_neg (by unfold ENOENT; decide)]
  show (door_ctrl_reject dc).1.state = DoorState.rejected
  exact door_ctrl_reject_state dc

theorem on_event_card_reading_null (dc : DoorCtrl) (val : Nat)
    (hst : dc.state = DoorState.reading_pin) (hck : dc.check_key = none) :
    (on_event dc WIEGAND_READER_EVENT_CARD val).1.state = DoorState.rejected := by
  simp only [on_event, WIEGAND_READER_EVENT_KEY, DOOR_CTRL_EVENT_STATE_CHANGED,
    DOOR_CTRL_EVENT_BUZZER_FINISHED, DOOR_CTRL_EVENT_IDLE_TIMEOUT,
    WIEGAND_READER_ERROR, WIEGAND_READER_EVENT_CARD]
  norm_num
  rw [hst]
  norm_num
  simp only [door_ctrl_check_key, hck]
  rw [if_neg (by unfold ENOENT; decide)]
  show (door_ctrl_reject _).1.state = DoorState.rejected
  exact door_ctrl_reject_state _

theorem runEvents_cons1 (dc : DoorCtrl) (a b : Nat) (es : List (Nat × Nat)) :
    (runEvents dc ((a, b) :: es)).1 = (runEvents (on_event dc a b).1 es).1 := rfl

theorem runEvents_nil1 (dc : DoorCtrl) : (runEvents dc []).1 = dc := rfl

theorem runEvents_pin_1234 (dc : DoorCtrl) (hst : dc.state = DoorState.idle) :
    (runEvents dc [(WIEGAND_READER_EVENT_KEY, 1), (WIEGAND_READER_EVENT_KEY, 2),
      (WIEGAND_READER_EVENT_KEY, 3), (WIEGAND_READER_EVENT_KEY, 4)]).1 =
    { dc with pin := 0xFFFF1234, state := DoorState.reading_pin } := by
  rw [runEvents_cons1, runEvents_cons1, runEvents_cons1, runEvents_cons1, runEvents_nil1]
  rw [on_event_digit_idle dc 1 hst (by omega)]
  dsimp only
  rw [on_event_digit_reading _ 2 rfl (by omega)]
  dsimp only
  rw [on_event_digit_reading _ 3 rfl (by omega)]
  dsimp only
  rw [on_event_digit_reading _ 4 rfl (by omega)]
  dsimp only
  congr 1

theorem runEvents_append (dc : DoorCtrl) (es1 es2 : List (Nat × Nat)) :
    (runEvents dc (es1 ++ es2)).1 = (runEvents (runEvents dc es1).1 es2).1 ∧
    (runEvents dc (es1 ++ es2)).2 =
      (runEvents dc es1).2 ++ (runEvents (runEvents dc es1).1 es2).2 := by
  induction es1 generalizing dc with
  | nil => exact ⟨rfl, rfl⟩
  | cons e es ih =>
    constructor
    · show (runEvents (on_event dc e.1 e.2).1 (es ++ es2)).1 = _
      rw [(ih (on_event dc e.1 e.2).1).1]
      rfl
    · show (on_event dc e.1 e.2).2 ++
          (runEvents (on_event dc e.1 e.2).1 (es ++ es2)).2 = _
      rw [(ih (on_event dc e.1 e.2).1).2]
      show _ = ((on_event dc e.1 e.2).2 ++
        (runEvents (on_event dc e.1 e.2).1 es).2) ++ _
      rw [List.append_assoc]
      rfl

/-! ### The claims -/

/-- C1 counterexample: the claim as stated is false for the settle
state TIMEOUT.  For a controller in READING_PIN, entering TIMEOUT - a
settle state different from the current state - emits no effects at
all: the idle timer is not descheduled and no pending idle-timeout
event is removed from the queue, because DOOR_CTRL_TIMEOUT is missing
from the switch in door_ctrl_set_state. -/
theorem C1_counterexample :
    (DoorCtrl.state ⟨0, DoorState.reading_pin, 0, 0, 0, none⟩ ≠
      DoorState.timeout) ∧
    (door_ctrl_set_state ⟨0, DoorState.reading_pin, 0, 0, 0, none⟩
      DoorState.timeout).2 = [] ∧
    Effect.timer_deschedule ∉
      (door_ctrl_set_state ⟨0, DoorState.reading_pin, 0, 0, 0, none⟩
        DoorState.timeout).2 ∧
    Effect.event_remove_pending DOOR_CTRL_EVENT_IDLE_TIMEOUT ∉
      (door_ctrl_set_state ⟨0, DoorState.reading_pin, 0, 0, 0, none⟩
        DoorState.timeout).2 := by
  refine ⟨by decide, rfl, by decide, by decide⟩

/-- C1 (amended): for every door controller, entering OPENING, REJECTED
or ERROR, or IDLE, from a different state deschedules the idle timer
and removes every pending idle-timeout event for this door from the
event queue (interpreting the emitted queue effect through event_remove:
on any well-formed queue, no event with this door's reader source and
the idle-timeout id remains); entering TIMEOUT from a different state
performs no cancellation. -/
theorem C1_amended (dc : DoorCtrl) (st : DoorState)
    (hst : st = DoorState.idle ∨ st = DoorState.opening ∨
      st = DoorState.rejected ∨ st = DoorState.error)
    (hne : dc.state ≠ st) :
    (door_ctrl_set_state dc st).2 =
      [Effect.timer_deschedule,
       Effect.event_remove_pending DOOR_CTRL_EVENT_IDLE_TIMEOUT] ∧
    (∀ (q : EQState) (wr : Nat), WF q → wr ≠ 0 →
      ∀ e ∈ absQ (event_remove q wr DOOR_CTRL_EVENT_IDLE_TIMEOUT).1,
        ¬(e.1 = wr ∧ e.2.1 = DOOR_CTRL_EVENT_IDLE_TIMEOUT)) ∧
    (∀ dc2 : DoorCtrl, dc2.state ≠ DoorState.timeout →
      (door_ctrl_set_state dc2 DoorState.timeout).2 = []) := by
  refine ⟨?_, ?_, ?_⟩
  · simp only [door_ctrl_set_state]
    rw [if_neg hne]
    rcases hst with rfl | rfl | rfl | rfl <;> rfl
  · intro q wr hq hwr e he
    obtain ⟨_, _, habs⟩ := event_remove_spec hq hwr
    rw [habs] at he
    have hkeep := List.of_mem_filter he
    intro hcon
    rw [hcon.1, hcon.2] at hkeep
    simp at hkeep
  · intro dc2 hne2
    simp only [door_ctrl_set_state]
    rw [if_neg hne2]

/-- C1 amended witness at a concrete controller, target state and
queue holding a pending idle-timeout event. -/
theorem C1_amended_witness :
    (door_ctrl_set_state ⟨3, DoorState.reading_pin, 0, 0, 0, none⟩
      DoorState.opening).2 =
      [Effect.timer_deschedule,
       Effect.event_remove_pending DOOR_CTRL_EVENT_IDLE_TIMEOUT] ∧
    (∀ e ∈ absQ (event_remove
        (event_add initEQ 9 DOOR_CTRL_EVENT_IDLE_TIMEOUT 0).1
        9 DOOR_CTRL_EVENT_IDLE_TIMEOUT).1,
      ¬(e.1 = 9 ∧ e.2.1 = DOOR_CTRL_EVENT_IDLE_TIMEOUT)) :=
  ⟨(C1_amended ⟨3, DoorState.reading_pin, 0, 0, 0, none⟩ DoorState.opening
      (Or.inr (Or.inl rfl)) (by decide)).1,
   (C1_amended ⟨3, DoorState.reading_pin, 0, 0, 0, none⟩ DoorState.opening
      (Or.inr (Or.inl rfl)) (by decide)).2.1
     (event_add initEQ 9 DOOR_CTRL_EVENT_IDLE_TIMEOUT 0).1 9
     (by decide) (by decide)⟩

/-- C2 counterexample: register handler 1 first, handler 2 second (same
source 5, mask 0, both matching); dispatching an event from source 5
invokes handler 2 FIRST - the claimed registration-order invocation
list is not what dispatch produces. -/
theorem C2_counterexample :
    event_run_handlers (registerAll []
      [⟨5, 0, 0, 1, 0⟩, ⟨5, 0, 0, 2, 0⟩]) 5 7 9 =
      [(2, 0, 7, 9), (1, 0, 7, 9)] ∧
    event_run_handlers (registerAll []
      [⟨5, 0, 0, 1, 0⟩, ⟨5, 0, 0, 2, 0⟩]) 5 7 9 ≠
      (([⟨5, 0, 0, 1, 0⟩, ⟨5, 0, 0, 2, 0⟩] : List EventHandler).filter
        (fun h => handlerMatches h 5 7)).map
        (fun h => (h.handler, h.context, 7, 9)) := by
  constructor <;> decide

/-- C2 (amended): for every popped event, dispatch invokes exactly those
registered handlers whose source equals the event's source and whose
optional mask/id filter matches (a zero mask matches every id;
otherwise the event id ANDed with the mask must equal the registered
id), passing the event's id and value - in REVERSE registration order
(most recently registered first), since event_handler_add pushes each
registration at the head of the registry and dispatch walks from the
head. -/
theorem C2_amended (regs : List EventHandler) (src id val : Nat)
    (hv : ∀ h ∈ regs, h.source ≠ 0 ∧ h.handler ≠ 0) :
    event_run_handlers (registerAll [] regs) src id val =
      (regs.reverse.filter (fun h => handlerMatches h src id)).map
        (fun h => (h.handler, h.context, id, val)) := by
  rw [registerAll_eq_reverse regs [] hv, List.append_nil,
    event_run_handlers_eq_filter]

/-- C2 amended witness at two concrete registrations. -/
theorem C2_amended_witness :
    event_run_handlers (registerAll []
      [⟨5, 0, 0, 1, 0⟩, ⟨5, 0, 0, 2, 0⟩]) 5 7 9 =
      (([⟨5, 0, 0, 1, 0⟩, ⟨5, 0, 0, 2, 0⟩] : List EventHandler).reverse.filter
        (fun h => handlerMatches h 5 7)).map
        (fun h => (h.handler, h.context, 7, 9)) :=
  C2_amended [⟨5, 0, 0, 1, 0⟩, ⟨5, 0, 0, 2, 0⟩] 5 7 9 (by decide)

/-- C3: for every sequence of enqueues that fits the 8-slot pool
alongside the events already queued (sources non-NULL), every event_add
succeeds, and draining the queue dispatches the previously queued events
followed by each of the new events exactly once, in exactly enqueue
order (each popped event is the one handed to event_run_handlers). -/
theorem C3_fifo_order (es : List (Nat × Nat × Nat)) (q : EQState)
    (hq : WF q) (hnz : ∀ e ∈ es, e.1 ≠ 0)
    (hlen : (absQ q).length + es.length ≤ 8) :
    (addAll q es).2 = List.replicate es.length (0 : Int) ∧
    absQ (addAll q es).1 = absQ q ++ es ∧
    dispatchSeq (addAll q es).1 (absQ q ++ es).length = absQ q ++ es := by
  obtain ⟨h1, h2, h3⟩ := addAll_spec es q hq hnz hlen
  exact ⟨h1, h3, dispatchSeq_spec (absQ q ++ es) (addAll q es).1 h2 h3⟩

/-- C3 witness: three events enqueued into the empty queue are all
accepted and dispatched exactly once, in enqueue order. -/
theorem C3_fifo_order_witness :
    (addAll initEQ [(5, 1, 10), (6, 2, 20), (5, 3, 30)]).2 =
      List.replicate 3 (0 : Int) ∧
    absQ (addAll initEQ [(5, 1, 10), (6, 2, 20), (5, 3, 30)]).1 =
      absQ initEQ ++ [(5, 1, 10), (6, 2, 20), (5, 3, 30)] ∧
    dispatchSeq (addAll initEQ [(5, 1, 10), (6, 2, 20), (5, 3, 30)]).1
      (absQ initEQ ++ [(5, 1, 10), (6, 2, 20), (5, 3, 30)]).length =
      absQ initEQ ++ [(5, 1, 10), (6, 2, 20), (5, 3, 30)] :=
  C3_fifo_order [(5, 1, 10), (6, 2, 20), (5, 3, 30)] initEQ
    (by decide) (by decide) (by decide)

/-- C4: PIN entry.  (a) From IDLE a digit key seeds the accumulator
with the digit in the low nibble and the all-ones sentinel in every
higher nibble, enters READING_PIN and arms the idle timer.  (b) In
READING_PIN each further digit shifts into the low nibble (uint32
shift).  (c) ENTER in READING_PIN calls check_key with type PIN and the
nibble-packed accumulator, transitions to OPENING if the validator
accepts (returns 0) and to REJECTED if it rejects, clearing the
accumulator either way.  (d) Digits 1,2,3,4 from IDLE accumulate
exactly 0xFFFF1234 - unused high nibbles 0xF - and a subsequent ENTER
submits that key, with the same OPENING/REJECTED outcome split. -/
theorem C4_pin_entry (dc : DoorCtrl) (f : Nat → Nat → Nat → Int) (d : Nat) :
    (dc.state = DoorState.idle → d ≤ 9 →
      on_event dc WIEGAND_READER_EVENT_KEY d =
        ({ dc with pin := 0xFFFFFFF0 ||| d, state := DoorState.reading_pin },
         [Effect.timer_schedule_in IDLE_TIMEOUT])) ∧
    (dc.state = DoorState.reading_pin → d ≤ 9 →
      on_event dc WIEGAND_READER_EVENT_KEY d =
        ({ dc with pin := (((dc.pin <<< 4) % 4294967296) &&& 0xFFFFFFF0) ||| d },
         [Effect.timer_schedule_in IDLE_TIMEOUT])) ∧
    (dc.state = DoorState.reading_pin → dc.check_key = some f →
      Effect.check_key_call DOOR_CTRL_PIN dc.pin ∈
        (on_event dc WIEGAND_READER_EVENT_KEY WIEGAND_KEY_ENTER).2 ∧
      (on_event dc WIEGAND_READER_EVENT_KEY WIEGAND_KEY_ENTER).1.pin = 0 ∧
      (f dc.door_id DOOR_CTRL_PIN dc.pin = 0 →
        (on_event dc WIEGAND_READER_EVENT_KEY WIEGAND_KEY_ENTER).1.state =
          DoorState.opening) ∧
      (f dc.door_id DOOR_CTRL_PIN dc.pin ≠ 0 →
        (on_event dc WIEGAND_READER_EVENT_KEY WIEGAND_KEY_ENTER).1.state =
          DoorState.rejected)) ∧
    (dc.state = DoorState.idle → dc.check_key = some f →
      (runEvents dc [(WIEGAND_READER_EVENT_KEY, 1), (WIEGAND_READER_EVENT_KEY, 2),
        (WIEGAND_READER_EVENT_KEY, 3), (WIEGAND_READER_EVENT_KEY, 4)]).1 =
        { dc with pin := 0xFFFF1234, state := DoorState.reading_pin } ∧
      Effect.check_key_call DOOR_CTRL_PIN 0xFFFF1234 ∈
        (runEvents dc [(WIEGAND_READER_EVENT_KEY, 1), (WIEGAND_READER_EVENT_KEY, 2),
          (WIEGAND_READER_EVENT_KEY, 3), (WIEGAND_READER_EVENT_KEY, 4),
          (WIEGAND_READER_EVENT_KEY, WIEGAND_KEY_ENTER)]).2 ∧
      (f dc.door_id DOOR_CTRL_PIN 0xFFFF1234 = 0 →
        (runEvents dc [(WIEGAND_READER_EVENT_KEY, 1), (WIEGAND_READER_EVENT_KEY, 2),
          (WIEGAND_READER_EVENT_KEY, 3), (WIEGAND_READER_EVENT_KEY, 4),
          (WIEGAND_READER_EVENT_KEY, WIEGAND_KEY_ENTER)]).1.state =
          DoorState.opening) ∧
      (f dc.door_id DOOR_CTRL_PIN 0xFFFF1234 ≠ 0 →
        (runEvents dc [(WIEGAND_READER_EVENT_KEY, 1), (WIEGAND_READER_EVENT_KEY, 2),
          (WIEGAND_READER_EVENT_KEY, 3), (WIEGAND_READER_EVENT_KEY, 4),
          (WIEGAND_READER_EVENT_KEY, WIEGAND_KEY_ENTER)]).1.state =
          DoorState.rejected)) := by
  refine ⟨fun hst hd => on_event_digit_idle dc d hst hd,
    fun hst hd => on_event_digit_reading dc d hst hd,
    fun hst hck => on_event_enter_reading dc f hst hck, ?_⟩
  intro hst hck
  have h4 := runEvents_pin_1234 dc hst
  set dc4 : DoorCtrl :=
    { dc with pin := 0xFFFF1234, state := DoorState.reading_pin } with hdc4
  have henter := on_event_enter_reading dc4 f (by rw [hdc4]) (by rw [hdc4]; exact hck)
  have hl5 : ([(WIEGAND_READER_EVENT_KEY, 1), (WIEGAND_READER_EVENT_KEY, 2),
      (WIEGAND_READER_EVENT_KEY, 3), (WIEGAND_READER_EVENT_KEY, 4),
      (WIEGAND_READER_EVENT_KEY, WIEGAND_KEY_ENTER)] : List (Nat × Nat)) =
      [(WIEGAND_READER_EVENT_KEY, 1), (WIEGAND_READER_EVENT_KEY, 2),
       (WIEGAND_READER_EVENT_KEY, 3), (WIEGAND_READER_EVENT_KEY, 4)] ++
      [(WIEGAND_READER_EVENT_KEY, WIEGAND_KEY_ENTER)] := rfl
  have happ := runEvents_append dc
    [(WIEGAND_READER_EVENT_KEY, 1), (WIEGAND_READER_EVENT_KEY, 2),
     (WIEGAND_READER_EVENT_KEY, 3), (WIEGAND_READER_EVENT_KEY, 4)]
    [(WIEGAND_READER_EVENT_KEY, WIEGAND_KEY_ENTER)]
  have hone1 : (runEvents dc4 [(WIEGAND_READER_EVENT_KEY, WIEGAND_KEY_ENTER)]).1 =
      (on_event dc4 WIEGAND_READER_EVENT_KEY WIEGAND_KEY_ENTER).1 := rfl
  have hone2 : (runEvents dc4 [(WIEGAND_READER_EVENT_KEY, WIEGAND_KEY_ENTER)]).2 =
      (on_event dc4 WIEGAND_READER_EVENT_KEY WIEGAND_KEY_ENTER).2 ++ [] := rfl
  refine ⟨h4, ?_, ?_, ?_⟩
  · rw [hl5, happ.2, h4, hone2]
    refine List.mem_append.mpr (Or.inr (List.mem_append.mpr (Or.inl ?_)))
    exact henter.1
  · intro hacc
    rw [hl5, happ.1, h4, hone1]
    exact henter.2.2.1 hacc
  · intro hrej
    rw [hl5, happ.1, h4, hone1]
    exact henter.2.2.2 hrej

/-- C4 witness: a concrete controller whose validator accepts exactly
the PIN key 0xFFFF1234 opens the door on 1,2,3,4,ENTER; one rejecting
everything is rejected; a single digit from IDLE seeds the
accumulator. -/
theorem C4_pin_entry_witness :
    on_event ⟨7, DoorState.idle, 0, 0, 0,
        some (fun _ _ k => if k = 0xFFFF1234 then 0 else 1)⟩
      WIEGAND_READER_EVENT_KEY 1 =
      ({ door_id := 7, state := DoorState.reading_pin, pin := 0xFFFFFFF1,
         open_status := 0, open_time := 0,
         check_key := some (fun _ _ k => if k = 0xFFFF1234 then 0 else 1) },
       [Effect.timer_schedule_in IDLE_TIMEOUT]) ∧
    (runEvents ⟨7, DoorState.idle, 0, 0, 0,
        some (fun _ _ k => if k = 0xFFFF1234 then 0 else 1)⟩
      [(WIEGAND_READER_EVENT_KEY, 1), (WIEGAND_READER_EVENT_KEY, 2),
       (WIEGAND_READER_EVENT_KEY, 3), (WIEGAND_READER_EVENT_KEY, 4),
       (WIEGAND_READER_EVENT_KEY, WIEGAND_KEY_ENTER)]).1.state =
      DoorState.opening ∧
    (runEvents ⟨7, DoorState.idle, 0, 0, 0, some (fun _ _ _ => 1)⟩
      [(WIEGAND_READER_EVENT_KEY, 1), (WIEGAND_READER_EVENT_KEY, 2),
       (WIEGAND_READER_EVENT_KEY, 3), (WIEGAND_READER_EVENT_KEY, 4),
       (WIEGAND_READER_EVENT_KEY, WIEGAND_KEY_ENTER)]).1.state =
      DoorState.rejected :=
  ⟨by
    have ha := (C4_pin_entry ⟨7, DoorState.idle, 0, 0, 0,
      some (fun _ _ k => if k = 0xFFFF1234 then 0 else 1)⟩
      (fun _ _ k => if k = 0xFFFF1234 then 0 else 1) 1).1 rfl (by omega)
    rw [ha]
    rfl,
   (C4_pin_entry ⟨7, DoorState.idle, 0, 0, 0,
      some (fun _ _ k => if k = 0xFFFF1234 then 0 else 1)⟩
      (fun _ _ k => if k = 0xFFFF1234 then 0 else 1) 1).2.2.2 rfl rfl |>.2.2.1
     (by simp),
   (C4_pin_entry ⟨7, DoorState.idle, 0, 0, 0, some (fun _ _ _ => 1)⟩
      (fun _ _ _ => 1) 1).2.2.2 rfl rfl |>.2.2.2 (by simp)⟩

/-- C5: event_add error handling.  A NULL source is rejected with
-EINVAL without modifying the queue; with all 8 pool slots occupied and
a non-NULL source it returns -ENOMEM with the queue state - every
queued event and all links - entirely unchanged; with a free slot and a
non-NULL source it succeeds, appending the event at the tail. -/
theorem C5_event_add_errors (q : EQState) (src id val : Nat) :
    (event_add q 0 id val = (q, -EINVAL)) ∧
    (src ≠ 0 → q.storage.length = 8 →
      (∀ i, i < 8 → (q.storage.getD i emptySlot).source ≠ 0) →
      event_add q src id val = (q, -ENOMEM)) ∧
    (WF q → src ≠ 0 →
      (∃ i, i < 8 ∧ (q.storage.getD i emptySlot).source = 0) →
      (event_add q src id val).2 = 0 ∧ WF (event_add q src id val).1 ∧
      absQ (event_add q src id val).1 = absQ q ++ [(src, id, val)]) := by
  refine ⟨event_add_null_source q id val, ?_, ?_⟩
  · intro hsrc hlen hfull
    exact event_add_full hsrc (fun i hi => hfull i (by omega))
  · intro hq hsrc hfree
    exact event_add_success hq hsrc hfree

/-- A queue with all 8 pool slots occupied, for the C5 witness. -/
def fullEQ : EQState :=
  (addAll initEQ [(9, 0, 0), (9, 1, 0), (9, 2, 0), (9, 3, 0), (9, 4, 0),
    (9, 5, 0), (9, 6, 0), (9, 7, 0)]).1

/-- C5 witness: the three cases at concrete queues. -/
theorem C5_event_add_errors_witness :
    (event_add initEQ 0 1 2 = (initEQ, -EINVAL)) ∧
    (event_add fullEQ 5 1 2 = (fullEQ, -ENOMEM)) ∧
    (absQ (event_add initEQ 5 1 2).1 = absQ initEQ ++ [(5, 1, 2)]) :=
  ⟨(C5_event_add_errors initEQ 5 1 2).1,
   (C5_event_add_errors fullEQ 5 1 2).2.1 (by decide) (by decide) (by decide),
   ((C5_event_add_errors initEQ 5 1 2).2.2 (by decide) (by decide)
     ⟨0, by decide⟩).2.2⟩

/-- C6: access-record encode/decode round-trip.  Encoding card "1234"
with doors bitmask 0b0101 = 5 produces key 1234 stored little-endian
and the permission byte 82 = 0x52, whose low 2 bits are the card
credential type and whose high 4 bits are the door bitmask; decoding
that record yields type "card", key "1234" and doors = 5. -/
theorem C6_roundtrip :
    write_set_access_record_query none (some "1234".toList) (some 5) =
      some [210, 4, 0, 0, 82] ∧
    (210 + 256 * 4 : Nat) = 1234 ∧
    (82 : Nat) &&& 0x3 = ACCESS_TYPE_CARD ∧
    (82 : Nat) >>> 4 = 5 ∧
    (write_set_access_record_query none (some "1234".toList) (some 5)).map
      read_get_access_record_response =
      some { rtype := "card", key := some "1234", doors := some 5 } := by
  refine ⟨by decide, by decide, by decide, by decide, by decide⟩

/-- C7: the open status aggregates the reader-sourced (bit 0) and
button-sourced (bit 1) reasons by OR, and door_ctrl_set_open touches
the actuators only on an edge of the aggregate: unchanged truth value
means no trigger call, a rising edge sets the open relay and LED
triggers on, a falling edge starts their timed release over
open_time. -/
theorem C7_open_status_edges (dc : DoorCtrl) (source status : Nat) :
    (dc.open_status < 4 →
      (dc.open_status ≠ 0 ↔
        (Nat.testBit dc.open_status DOOR_OPEN_FROM_READER ∨
         Nat.testBit dc.open_status DOOR_OPEN_FROM_BUTTON))) ∧
    (((dc.open_status ≠ 0) ↔
        ((door_ctrl_set_open dc source status).1.open_status ≠ 0)) →
      (door_ctrl_set_open dc source status).2 = []) ∧
    (dc.open_status = 0 →
      (door_ctrl_set_open dc source status).1.open_status ≠ 0 →
      (door_ctrl_set_open dc source status).2 =
        [Effect.trigger_set Trig.door_open 1, Effect.trigger_set Trig.led 1]) ∧
    (dc.open_status ≠ 0 →
      (door_ctrl_set_open dc source status).1.open_status = 0 →
      (door_ctrl_set_open dc source status).2 =
        [Effect.trigger_start Trig.door_open dc.open_time,
         Effect.trigger_start Trig.led dc.open_time]) := by
  have hval : (door_ctrl_set_open dc source status).1.open_status =
      (if status ≠ 0 then (dc.open_status ||| BIT source) % 256
       else dc.open_status &&& (255 ^^^ (BIT source % 256))) := by
    simp only [door_ctrl_set_open]
    repeat' split
    all_goals rfl
  refine ⟨?_, ?_, ?_, ?_⟩
  · intro h4
    generalize dc.open_status = x at h4 ⊢
    interval_cases x <;> decide
  · intro hiff
    rw [hval] at hiff
    simp only [door_ctrl_set_open]
    rw [if_pos hiff]
  · intro hz hns
    rw [hval] at hns
    simp only [door_ctrl_set_open]
    rw [if_neg (fun hcon => (hcon.mpr hns) hz), if_pos hns]
  · intro hnz hns
    rw [hval] at hns
    simp only [door_ctrl_set_open]
    rw [if_neg (fun hcon => (hcon.mp hnz) hns), if_neg (fun hh => hh hns)]

/-- C7 witness: concrete rising edge, falling edge, and a clear of one
reason bit that leaves the aggregate true (no trigger calls). -/
theorem C7_open_status_edges_witness :
    (door_ctrl_set_open ⟨1, DoorState.idle, 0, 0, 400, none⟩ 1 1).2 =
      [Effect.trigger_set Trig.door_open 1, Effect.trigger_set Trig.led 1] ∧
    (door_ctrl_set_open ⟨1, DoorState.idle, 0, 2, 400, none⟩ 1 0).2 =
      [Effect.trigger_start Trig.door_open 400,
       Effect.trigger_start Trig.led 400] ∧
    (door_ctrl_set_open ⟨1, DoorState.idle, 0, 3, 400, none⟩ 1 0).2 = [] :=
  ⟨(C7_open_status_edges ⟨1, DoorState.idle, 0, 0, 400, none⟩ 1 1).2.2.1
     rfl (by decide),
   (C7_open_status_edges ⟨1, DoorState.idle, 0, 2, 400, none⟩ 1 0).2.2.2
     (by decide) (by decide),
   (C7_open_status_edges ⟨1, DoorState.idle, 0, 3, 400, none⟩ 1 0).2.1
     (by decide)⟩

/-- C8: with no check_key validator configured, every credential check
fails with -ENOENT, and each of the three credential attempts - a card
in IDLE, ENTER in READING_PIN, a card in READING_PIN - routes the
state machine to REJECTED. -/
theorem C8_null_validator (dc : DoorCtrl) (val : Nat)
    (hck : dc.check_key = none) :
    (∀ ctype key, door_ctrl_check_key dc ctype key = -ENOENT) ∧
    (dc.state = DoorState.idle →
      (on_event dc WIEGAND_READER_EVENT_CARD val).1.state =
        DoorState.rejected) ∧
    (dc.state = DoorState.reading_pin →
      (on_event dc WIEGAND_READER_EVENT_KEY WIEGAND_KEY_ENTER).1.state =
        DoorState.rejected) ∧
    (dc.state = DoorState.reading_pin →
      (on_event dc WIEGAND_READER_EVENT_CARD val).1.state =
        DoorState.rejected) := by
  refine ⟨?_, fun hst => on_event_card_idle_null dc val hst hck,
    fun hst => on_event_enter_reading_null dc hst hck,
    fun hst => on_event_card_reading_null dc val hst hck⟩
  intro ctype key
  simp [door_ctrl_check_key, hck]

/-- C8 witness: the three rejection routes at concrete controllers. -/
theorem C8_null_validator_witness :
    (on_event ⟨1, DoorState.idle, 0, 0, 0, none⟩
      WIEGAND_READER_EVENT_CARD 42).1.state = DoorState.rejected ∧
    (on_event ⟨1, DoorState.reading_pin, 5, 0, 0, none⟩
      WIEGAND_READER_EVENT_KEY WIEGAND_KEY_ENTER).1.state =
      DoorState.rejected ∧
    (on_event ⟨1, DoorState.reading_pin, 5, 0, 0, none⟩
      WIEGAND_READER_EVENT_CARD 42).1.state = DoorState.rejected :=
  ⟨(C8_null_validator ⟨1, DoorState.idle, 0, 0, 0, none⟩ 42 rfl).2.1 rfl,
   (C8_null_validator ⟨1, DoorState.reading_pin, 5, 0, 0, none⟩ 42 rfl).2.2.1 rfl,
   (C8_null_validator ⟨1, DoorState.reading_pin, 5, 0, 0, none⟩ 42 rfl).2.2.2 rfl⟩

/-- C9: event_remove(source, id) on a well-formed queue removes exactly
the pending events whose source and id both match, keeps all
non-matching events in their original relative order with consistent
head, next and tail links (well-formedness is preserved, including when
the removed event was the tail), and when nothing matches the queue
state is left entirely unchanged. -/
theorem C9_event_remove (q : EQState) (src id : Nat) :
    (WF q → src ≠ 0 →
      (event_remove q src id).2 = 0 ∧
      WF (event_remove q src id).1 ∧
      absQ (event_remove q src id).1 =
        (absQ q).filter (fun e => !(e.1 == src && e.2.1 == id))) ∧
    (WF q → src ≠ 0 → (∀ e ∈ absQ q, ¬(e.1 = src ∧ e.2.1 = id)) →
      (event_remove q src id).1 = q) :=
  ⟨fun hq hs => event_remove_spec hq hs,
   fun hq hs hno => event_remove_no_match hq hs hno⟩

/-- A three-event queue whose first and last events (the tail) match
the removal key (9, 1), for the C9 witness. -/
def removeEQ : EQState := (addAll initEQ [(9, 1, 0), (5, 2, 1), (9, 1, 7)]).1

/-- C9 witness: removal of two matching events including the tail, and
a no-match removal leaving the queue untouched. -/
theorem C9_event_remove_witness :
    (WF (event_remove removeEQ 9 1).1 ∧
     absQ (event_remove removeEQ 9 1).1 =
       (absQ removeEQ).filter (fun e => !(e.1 == 9 && e.2.1 == 1))) ∧
    (event_remove removeEQ 6 4).1 = removeEQ :=
  ⟨⟨((C9_event_remove removeEQ 9 1).1 (by decide) (by decide)).2.1,
    ((C9_event_remove removeEQ 9 1).1 (by decide) (by decide)).2.2⟩,
   (C9_event_remove removeEQ 6 4).2 (by decide) (by decide) (by decide)⟩

/-- C10: a DOOR_CTRL_EVENT_IDLE_TIMEOUT event makes on_event transition
to TIMEOUT and start the timeout buzzer sequence for EVERY current
state - IDLE and the settle states included, not only READING_PIN. -/
theorem C10_idle_timeout_any_state (dc : DoorCtrl) (val : Nat) :
    (on_event dc DOOR_CTRL_EVENT_IDLE_TIMEOUT val).1.state =
      DoorState.timeout ∧
    Effect.trigger_start_seq Trig.buzzer buzzer_timeout_seq ∈
      (on_event dc DOOR_CTRL_EVENT_IDLE_TIMEOUT val).2 := by
  rw [on_event_idle_timeout_eq]
  exact ⟨door_ctrl_timeout_state dc, door_ctrl_timeout_buzzer dc⟩
